import Mathlib

/-!
# Hex-Rays ctree model (hexrays70.hpp): a verification development

The definitions below embed the parts of `hexrays70.hpp` that the verified
properties talk about.  Unsigned machine values (`ea_t`, bit sets stored in an
`int`) are natural numbers; C enumerations whose values are compared with
`<`/`<=` carry their integer value explicitly.
-/

namespace Hexrays

/-! ## Ctree element types -/

/-- Ctree element type `ctype_t`: the expression kinds `cot_...` come first,
the statement kinds `cit_...` follow. -/
inductive ctype_t : Type
  | cot_empty | cot_comma | cot_asg | cot_asgbor | cot_asgxor | cot_asgband
  | cot_asgadd | cot_asgsub | cot_asgmul | cot_asgsshr | cot_asgushr | cot_asgshl
  | cot_asgsdiv | cot_asgudiv | cot_asgsmod | cot_asgumod | cot_tern | cot_lor
  | cot_land | cot_bor | cot_xor | cot_band | cot_eq | cot_ne | cot_sge | cot_uge
  | cot_sle | cot_ule | cot_sgt | cot_ugt | cot_slt | cot_ult | cot_sshr | cot_ushr
  | cot_shl | cot_add | cot_sub | cot_mul | cot_sdiv | cot_udiv | cot_smod | cot_umod
  | cot_fadd | cot_fsub | cot_fmul | cot_fdiv | cot_fneg | cot_neg | cot_cast
  | cot_lnot | cot_bnot | cot_ptr | cot_ref | cot_postinc | cot_postdec | cot_preinc
  | cot_predec | cot_call | cot_idx | cot_memref | cot_memptr | cot_num | cot_fnum
  | cot_str | cot_obj | cot_var | cot_insn | cot_sizeof | cot_helper | cot_type
  | cit_empty | cit_block | cit_expr | cit_if | cit_for | cit_while | cit_do
  | cit_switch | cit_break | cit_continue | cit_return | cit_goto | cit_asm | cit_end
  deriving DecidableEq, Repr

namespace ctype_t

/-- The integer value of each enumerator, as written in the enum. -/
def val : ctype_t → Nat
  | cot_empty => 0 | cot_comma => 1 | cot_asg => 2 | cot_asgbor => 3
  | cot_asgxor => 4 | cot_asgband => 5 | cot_asgadd => 6 | cot_asgsub => 7
  | cot_asgmul => 8 | cot_asgsshr => 9 | cot_asgushr => 10 | cot_asgshl => 11
  | cot_asgsdiv => 12 | cot_asgudiv => 13 | cot_asgsmod => 14 | cot_asgumod => 15
  | cot_tern => 16 | cot_lor => 17 | cot_land => 18 | cot_bor => 19 | cot_xor => 20
  | cot_band => 21 | cot_eq => 22 | cot_ne => 23 | cot_sge => 24 | cot_uge => 25
  | cot_sle => 26 | cot_ule => 27 | cot_sgt => 28 | cot_ugt => 29 | cot_slt => 30
  | cot_ult => 31 | cot_sshr => 32 | cot_ushr => 33 | cot_shl => 34 | cot_add => 35
  | cot_sub => 36 | cot_mul => 37 | cot_sdiv => 38 | cot_udiv => 39 | cot_smod => 40
  | cot_umod => 41 | cot_fadd => 42 | cot_fsub => 43 | cot_fmul => 44 | cot_fdiv => 45
  | cot_fneg => 46 | cot_neg => 47 | cot_cast => 48 | cot_lnot => 49 | cot_bnot => 50
  | cot_ptr => 51 | cot_ref => 52 | cot_postinc => 53 | cot_postdec => 54
  | cot_preinc => 55 | cot_predec => 56 | cot_call => 57 | cot_idx => 58
  | cot_memref => 59 | cot_memptr => 60 | cot_num => 61 | cot_fnum => 62
  | cot_str => 63 | cot_obj => 64 | cot_var => 65 | cot_insn => 66 | cot_sizeof => 67
  | cot_helper => 68 | cot_type => 69
  | cit_empty => 70 | cit_block => 71 | cit_expr => 72 | cit_if => 73 | cit_for => 74
  | cit_while => 75 | cit_do => 76 | cit_switch => 77 | cit_break => 78
  | cit_continue => 79 | cit_return => 80 | cit_goto => 81 | cit_asm => 82
  | cit_end => 83

/-- The alias `cot_last = cot_type`. -/
def cot_last : ctype_t := cot_type

end ctype_t

/-- The member `citem_t::is_expr`, as a function of the item's `op`:
`return op <= cot_last;`. -/
def is_expr (op : ctype_t) : Bool := decide (op.val ≤ ctype_t.cot_last.val)

/-! ## Comment locations -/

/-- Effective addresses `ea_t` are unsigned machine words. -/
abbrev ea_t := Nat

/-- Comment item preciser `item_preciser_t`.  Besides the named enumerators the
type holds case values combined with the `ITP_CASE`/`ITP_SIGN` bits, so it is
represented by its integer value. -/
abbrev item_preciser_t := Int

def ITP_EMPTY : item_preciser_t := 0
def ITP_ARG1 : item_preciser_t := ITP_EMPTY + 1
def ITP_ARG64 : item_preciser_t := ITP_ARG1 + 63
def ITP_BRACE1 : item_preciser_t := ITP_ARG64 + 1
def ITP_INNER_LAST : item_preciser_t := ITP_BRACE1
def ITP_ASM : item_preciser_t := ITP_INNER_LAST + 1
def ITP_ELSE : item_preciser_t := ITP_ASM + 1
def ITP_DO : item_preciser_t := ITP_ELSE + 1
def ITP_SEMI : item_preciser_t := ITP_DO + 1
def ITP_CURLY1 : item_preciser_t := ITP_SEMI + 1
def ITP_CURLY2 : item_preciser_t := ITP_CURLY1 + 1
def ITP_BRACE2 : item_preciser_t := ITP_CURLY2 + 1
def ITP_COLON : item_preciser_t := ITP_BRACE2 + 1
def ITP_BLOCK1 : item_preciser_t := ITP_COLON + 1
def ITP_BLOCK2 : item_preciser_t := ITP_BLOCK1 + 1
def ITP_CASE : item_preciser_t := 0x40000000
def ITP_SIGN : item_preciser_t := 0x20000000

/-- Ctree location `treeloc_t`, used to denote comment locations. -/
structure treeloc_t where
  ea : ea_t
  itp : item_preciser_t
  deriving DecidableEq, Repr

/-- The member `treeloc_t::operator<`:
`return ea < r.ea || (ea == r.ea && itp < r.itp);`. -/
def treeloc_t.lt (l r : treeloc_t) : Bool :=
  decide (l.ea < r.ea) || (decide (l.ea = r.ea) && decide (l.itp < r.itp))

/-- The member `treeloc_t::operator==`:
`return ea == r.ea && itp == r.itp;`. -/
def treeloc_t.eq (l r : treeloc_t) : Bool :=
  decide (l.ea = r.ea) && decide (l.itp = r.itp)

/-- Ctree item comment `citem_cmt_t`: the comment body (a `qstring`) and the
fact of its retrieval. -/
structure citem_cmt_t where
  text : String
  used : Bool := false
  deriving DecidableEq, Repr

/-! ## Ordered associative containers

`std::map<K, V>` comes from the C++ standard library.  It is represented by the
sequence of its entries in iteration order; all operations consult the key
comparison `lt` only, and two keys are the same key when neither is less than
the other. -/

/-- The laws a key comparison has to obey. -/
structure strict_order {K : Type} (lt : K → K → Bool) : Prop where
  irrefl : ∀ a, lt a a = false
  trans : ∀ a b c, lt a b = true → lt b c = true → lt a c = true
  total : ∀ a b, lt a b = false → lt b a = false → a = b

/-- Entries of a `std::map<K, V>` in iteration order. -/
abbrev std_map (K V : Type) := List (K × V)

namespace std_map

variable {K V : Type}

/-- Lookup `m.find(k)`: the value of the entry whose key is equivalent to `k`. -/
def find (lt : K → K → Bool) (k : K) : std_map K V → Option V
  | [] => none
  | (k0, v0) :: rest =>
    if !lt k0 k && !lt k k0 then some v0 else find lt k rest

/-- Store `m[k] = v`: a new entry is linked in at its place in key order, an
existing entry with an equivalent key has its value replaced. -/
def assign (lt : K → K → Bool) (k : K) (v : V) : std_map K V → std_map K V
  | [] => [(k, v)]
  | (k0, v0) :: rest =>
    if lt k k0 then (k, v) :: (k0, v0) :: rest
    else if lt k0 k then (k0, v0) :: assign lt k v rest
    else (k0, v) :: rest

/-- Container invariant: the entries are strictly increasing in key order. -/
def ordered (lt : K → K → Bool) (m : std_map K V) : Prop :=
  List.Pairwise (fun a b => lt a.1 b.1 = true) m

/-- The container obtained from the empty one by storing the given entries one
after the other. -/
def build (lt : K → K → Bool) (ops : List (K × V)) : std_map K V :=
  ops.foldl (fun m kv => assign lt kv.1 kv.2 m) []

end std_map

/-- Comments are attached to tree locations:
`typedef std::map<treeloc_t, citem_cmt_t> user_cmts_t;`. -/
abbrev user_cmts_t := std_map treeloc_t citem_cmt_t

/-- Lookup in a comment table. -/
def user_cmts_find (k : treeloc_t) (m : user_cmts_t) : Option citem_cmt_t :=
  std_map.find treeloc_t.lt k m

/-- Store in a comment table. -/
def user_cmts_assign (k : treeloc_t) (v : citem_cmt_t) (m : user_cmts_t) : user_cmts_t :=
  std_map.assign treeloc_t.lt k v m

/-! ## Strings, types and variable locations -/

/-- Strings `qstring`. -/
abbrev qstring := String

/-- The all-ones address `BADADDR`, written for the 64-bit address build. -/
def BADADDR : ea_t := 0xFFFFFFFFFFFFFFFF

/-- Modelled from the spec: `tinfo_t` (type information) is declared in the SDK
header typeinf.hpp, which is not part of this header.  A type is represented by
its serialized declaration; the default-constructed type has none. -/
structure tinfo_t where
  decl : List Nat := []
  deriving DecidableEq, Repr

/-- Modelled from the spec: `tinfo_t::empty()` of typeinf.hpp, true for a type
without a declaration. -/
def tinfo_t.empty (t : tinfo_t) : Bool := t.decl.isEmpty

/-- Storage classes a location piece can live in: the micro-register file or
the stack frame. -/
inductive storage_t : Type
  | reg | stk
  deriving DecidableEq, Repr

/-- Modelled from the spec: one piece `argpart_t` of a scattered location (the
class is declared in typeinf.hpp): where the piece lives and how many bytes it
takes. -/
structure argpart_t where
  storage : storage_t
  start : Nat
  size : Nat
  deriving DecidableEq, Repr

/-- Modelled from the spec: the variable location `vdloc_t`, whose base class
`argloc_t` is declared in typeinf.hpp: nothing, a single register, a register
pair, a non-negative stack offset relative to the minimal stack pointer, or a
scattered union of pieces. -/
inductive vdloc_t : Type
  | none
  | reg1 (reg : Nat)
  | reg2 (reg1 reg2 : Nat)
  | stkoff (off : Nat)
  | scattered (parts : List argpart_t)
  deriving DecidableEq, Repr

/-- Local variable locator `lvar_locator_t`: location and definition address. -/
structure lvar_locator_t where
  location : vdloc_t := vdloc_t.none
  defea : ea_t := BADADDR
  deriving DecidableEq, Repr

/-! ## Local variables -/

def CVAR_USED : Nat := 0x0001
def CVAR_TYPE : Nat := 0x0002
def CVAR_NAME : Nat := 0x0004
def CVAR_MREG : Nat := 0x0008
def CVAR_NOWD : Nat := 0x0010
def CVAR_UNAME : Nat := 0x0020
def CVAR_UTYPE : Nat := 0x0040
def CVAR_RESULT : Nat := 0x0080
def CVAR_ARG : Nat := 0x0100
def CVAR_FAKE : Nat := 0x0200
def CVAR_OVER : Nat := 0x0400
def CVAR_FLOAT : Nat := 0x0800
def CVAR_SPOILED : Nat := 0x1000
def CVAR_MAPDST : Nat := 0x2000
def CVAR_PARTIAL : Nat := 0x4000

/-- Bitwise complement `~x` of a 32-bit `int`, on bit patterns. -/
def bit_not32 (x : Nat) : Nat := 0xFFFFFFFF ^^^ x

/-- Definition of a local variable `lvar_t`.  The private `int flags` is kept
as its 32-bit pattern. -/
structure lvar_t extends lvar_locator_t where
  flags : Nat := CVAR_USED
  name : qstring := ""
  cmt : qstring := ""
  tif : tinfo_t := {}
  width : Int := 0
  defblk : Int := -1
  divisor : Nat := 0
  deriving DecidableEq, Repr

namespace lvar_t

def used (v : lvar_t) : Bool := (v.flags &&& CVAR_USED) != 0
def typed (v : lvar_t) : Bool := (v.flags &&& CVAR_TYPE) != 0
def mreg_done (v : lvar_t) : Bool := (v.flags &&& CVAR_MREG) != 0
def has_nice_name (v : lvar_t) : Bool := (v.flags &&& CVAR_NAME) != 0
def is_unknown_width (v : lvar_t) : Bool := (v.flags &&& CVAR_NOWD) != 0
def has_user_info (v : lvar_t) : Bool :=
  (v.flags &&& (CVAR_UNAME ||| CVAR_UTYPE)) != 0 || !v.cmt.isEmpty
def has_user_name (v : lvar_t) : Bool := (v.flags &&& CVAR_UNAME) != 0
def has_user_type (v : lvar_t) : Bool := (v.flags &&& CVAR_UTYPE) != 0
def is_result_var (v : lvar_t) : Bool := (v.flags &&& CVAR_RESULT) != 0
def is_arg_var (v : lvar_t) : Bool := (v.flags &&& CVAR_ARG) != 0
def is_fake_var (v : lvar_t) : Bool := (v.flags &&& CVAR_FAKE) != 0
def is_overlapped_var (v : lvar_t) : Bool := (v.flags &&& CVAR_OVER) != 0
def is_floating_var (v : lvar_t) : Bool := (v.flags &&& CVAR_FLOAT) != 0
def is_spoiled_var (v : lvar_t) : Bool := (v.flags &&& CVAR_SPOILED) != 0
def is_partialy_typed (v : lvar_t) : Bool := (v.flags &&& CVAR_PARTIAL) != 0
def is_mapdst_var (v : lvar_t) : Bool := (v.flags &&& CVAR_MAPDST) != 0

def set_used (v : lvar_t) : lvar_t := { v with flags := v.flags ||| CVAR_USED }
def clear_used (v : lvar_t) : lvar_t := { v with flags := v.flags &&& bit_not32 CVAR_USED }
def set_typed (v : lvar_t) : lvar_t := { v with flags := v.flags ||| CVAR_TYPE }
def set_non_typed (v : lvar_t) : lvar_t := { v with flags := v.flags &&& bit_not32 CVAR_TYPE }
def clr_user_info (v : lvar_t) : lvar_t :=
  { v with flags := v.flags &&& bit_not32 (CVAR_UNAME ||| CVAR_UTYPE) }
def set_user_name (v : lvar_t) : lvar_t :=
  { v with flags := v.flags ||| (CVAR_NAME ||| CVAR_UNAME) }
def set_user_type (v : lvar_t) : lvar_t :=
  { v with flags := v.flags ||| (CVAR_TYPE ||| CVAR_UTYPE) }
def clr_user_type (v : lvar_t) : lvar_t := { v with flags := v.flags &&& bit_not32 CVAR_UTYPE }
def clr_user_name (v : lvar_t) : lvar_t := { v with flags := v.flags &&& bit_not32 CVAR_UNAME }
def set_mreg_done (v : lvar_t) : lvar_t := { v with flags := v.flags ||| CVAR_MREG }
def clr_mreg_done (v : lvar_t) : lvar_t := { v with flags := v.flags &&& bit_not32 CVAR_MREG }
def set_unknown_width (v : lvar_t) : lvar_t := { v with flags := v.flags ||| CVAR_NOWD }
def clr_unknown_width (v : lvar_t) : lvar_t := { v with flags := v.flags &&& bit_not32 CVAR_NOWD }
def set_arg_var (v : lvar_t) : lvar_t := { v with flags := v.flags ||| CVAR_ARG }
def clr_arg_var (v : lvar_t) : lvar_t := { v with flags := v.flags &&& bit_not32 CVAR_ARG }
def set_fake_var (v : lvar_t) : lvar_t := { v with flags := v.flags ||| CVAR_FAKE }
def clr_fake_var (v : lvar_t) : lvar_t := { v with flags := v.flags &&& bit_not32 CVAR_FAKE }
def set_overlapped_var (v : lvar_t) : lvar_t := { v with flags := v.flags ||| CVAR_OVER }
def clr_overlapped_var (v : lvar_t) : lvar_t := { v with flags := v.flags &&& bit_not32 CVAR_OVER }
def set_floating_var (v : lvar_t) : lvar_t := { v with flags := v.flags ||| CVAR_FLOAT }
def clr_floating_var (v : lvar_t) : lvar_t := { v with flags := v.flags &&& bit_not32 CVAR_FLOAT }
def set_spoiled_var (v : lvar_t) : lvar_t := { v with flags := v.flags ||| CVAR_SPOILED }
def clr_spoiled_var (v : lvar_t) : lvar_t := { v with flags := v.flags &&& bit_not32 CVAR_SPOILED }
def set_mapdst_var (v : lvar_t) : lvar_t := { v with flags := v.flags ||| CVAR_MAPDST }
def clr_mapdst_var (v : lvar_t) : lvar_t := { v with flags := v.flags &&& bit_not32 CVAR_MAPDST }
def set_partialy_typed (v : lvar_t) : lvar_t := { v with flags := v.flags ||| CVAR_PARTIAL }
def clr_partialy_typed (v : lvar_t) : lvar_t := { v with flags := v.flags &&& bit_not32 CVAR_PARTIAL }

end lvar_t

/-- Names of the flag mutators of `lvar_t` that come in set/clear pairs. -/
inductive lvar_mutator : Type
  | set_used | clear_used | set_typed | set_non_typed
  | set_user_name | clr_user_name | set_user_type | clr_user_type
  | set_arg_var | clr_arg_var | set_fake_var | clr_fake_var
  | set_overlapped_var | clr_overlapped_var | set_floating_var | clr_floating_var
  | set_mapdst_var | clr_mapdst_var | set_partialy_typed | clr_partialy_typed
  | set_unknown_width | clr_unknown_width | set_mreg_done | clr_mreg_done
  | set_spoiled_var | clr_spoiled_var
  deriving DecidableEq, Repr

/-- Names of the property predicates of `lvar_t`. -/
inductive lvar_property : Type
  | used | typed | mreg_done | has_nice_name | is_unknown_width | has_user_info
  | has_user_name | has_user_type | is_result_var | is_arg_var | is_fake_var
  | is_overlapped_var | is_floating_var | is_spoiled_var | is_partialy_typed
  | is_mapdst_var
  deriving DecidableEq, Repr

/-- Calling the named mutator. -/
def lvar_mutator.run : lvar_mutator → lvar_t → lvar_t
  | set_used => lvar_t.set_used | clear_used => lvar_t.clear_used
  | set_typed => lvar_t.set_typed | set_non_typed => lvar_t.set_non_typed
  | set_user_name => lvar_t.set_user_name | clr_user_name => lvar_t.clr_user_name
  | set_user_type => lvar_t.set_user_type | clr_user_type => lvar_t.clr_user_type
  | set_arg_var => lvar_t.set_arg_var | clr_arg_var => lvar_t.clr_arg_var
  | set_fake_var => lvar_t.set_fake_var | clr_fake_var => lvar_t.clr_fake_var
  | set_overlapped_var => lvar_t.set_overlapped_var
  | clr_overlapped_var => lvar_t.clr_overlapped_var
  | set_floating_var => lvar_t.set_floating_var
  | clr_floating_var => lvar_t.clr_floating_var
  | set_mapdst_var => lvar_t.set_mapdst_var | clr_mapdst_var => lvar_t.clr_mapdst_var
  | set_partialy_typed => lvar_t.set_partialy_typed
  | clr_partialy_typed => lvar_t.clr_partialy_typed
  | set_unknown_width => lvar_t.set_unknown_width
  | clr_unknown_width => lvar_t.clr_unknown_width
  | set_mreg_done => lvar_t.set_mreg_done | clr_mreg_done => lvar_t.clr_mreg_done
  | set_spoiled_var => lvar_t.set_spoiled_var | clr_spoiled_var => lvar_t.clr_spoiled_var

/-- Evaluating the named predicate. -/
def lvar_property.holds : lvar_property → lvar_t → Bool
  | used => lvar_t.used | typed => lvar_t.typed | mreg_done => lvar_t.mreg_done
  | has_nice_name => lvar_t.has_nice_name | is_unknown_width => lvar_t.is_unknown_width
  | has_user_info => lvar_t.has_user_info
  | has_user_name => lvar_t.has_user_name | has_user_type => lvar_t.has_user_type
  | is_result_var => lvar_t.is_result_var | is_arg_var => lvar_t.is_arg_var
  | is_fake_var => lvar_t.is_fake_var | is_overlapped_var => lvar_t.is_overlapped_var
  | is_floating_var => lvar_t.is_floating_var | is_spoiled_var => lvar_t.is_spoiled_var
  | is_partialy_typed => lvar_t.is_partialy_typed | is_mapdst_var => lvar_t.is_mapdst_var

/-- The property a mutator is named after. -/
def lvar_mutator.own : lvar_mutator → lvar_property
  | set_used | clear_used => .used
  | set_typed | set_non_typed => .typed
  | set_user_name | clr_user_name => .has_user_name
  | set_user_type | clr_user_type => .has_user_type
  | set_arg_var | clr_arg_var => .is_arg_var
  | set_fake_var | clr_fake_var => .is_fake_var
  | set_overlapped_var | clr_overlapped_var => .is_overlapped_var
  | set_floating_var | clr_floating_var => .is_floating_var
  | set_mapdst_var | clr_mapdst_var => .is_mapdst_var
  | set_partialy_typed | clr_partialy_typed => .is_partialy_typed
  | set_unknown_width | clr_unknown_width => .is_unknown_width
  | set_mreg_done | clr_mreg_done => .mreg_done
  | set_spoiled_var | clr_spoiled_var => .is_spoiled_var

/-- Whether the mutator is the setting one of its pair. -/
def lvar_mutator.is_setter : lvar_mutator → Bool
  | set_used | set_typed | set_user_name | set_user_type | set_arg_var | set_fake_var
  | set_overlapped_var | set_floating_var | set_mapdst_var | set_partialy_typed
  | set_unknown_width | set_mreg_done | set_spoiled_var => true
  | _ => false

/-- Properties besides its own that a mutator can change: a user-defined name is
also a nice name, a user-defined type is also a type, and `has_user_info`
combines the user-name and user-type bits. -/
def lvar_mutator.also : lvar_mutator → List lvar_property
  | set_user_name => [.has_nice_name, .has_user_info]
  | clr_user_name => [.has_user_info]
  | set_user_type => [.typed, .has_user_info]
  | clr_user_type => [.has_user_info]
  | _ => []

/-! ## Saved user settings for local variables -/

def LVINF_KEEP : Nat := 0x0001

/-- Saved user settings `lvar_saved_info_t`: name, type, comment.  The
`int flags` is kept as its 32-bit pattern. -/
structure lvar_saved_info_t where
  ll : lvar_locator_t := {}
  name : qstring := ""
  type : tinfo_t := {}
  cmt : qstring := ""
  flags : Nat := 0
  deriving DecidableEq, Repr

namespace lvar_saved_info_t

/-- The member `has_info`:
`return !name.empty() || !type.empty() || !cmt.empty();`. -/
def has_info (s : lvar_saved_info_t) : Bool :=
  !s.name.isEmpty || !s.type.empty || !s.cmt.isEmpty

def is_kept (s : lvar_saved_info_t) : Bool := (s.flags &&& LVINF_KEEP) != 0
def clear_keep (s : lvar_saved_info_t) : lvar_saved_info_t :=
  { s with flags := s.flags &&& bit_not32 LVINF_KEEP }
def set_keep (s : lvar_saved_info_t) : lvar_saved_info_t :=
  { s with flags := s.flags ||| LVINF_KEEP }

end lvar_saved_info_t

def ULV_PRECISE_DEFEA : Nat := 0x0001

/-- All user-defined information about local variables, `lvar_uservec_t`. -/
structure lvar_uservec_t where
  lvvec : List lvar_saved_info_t := []
  sizes : List Int := []
  lmaps : std_map lvar_locator_t lvar_locator_t := []
  stkoff_delta : Nat := 0
  ulv_flags : Nat := ULV_PRECISE_DEFEA
  deriving DecidableEq, Repr

/-- The loop of `lvar_uservec_t::find_info` over the entries from position `i`
on: the position of the first entry with `p->ll == vloc`, where `==` is
`compare(r) == 0` with the locator comparison `cmp`. -/
def find_info_from (cmp : lvar_locator_t → lvar_locator_t → Int) (vloc : lvar_locator_t) :
    List lvar_saved_info_t → Nat → Option Nat
  | [], _ => none
  | p :: rest, i => if cmp p.ll vloc = 0 then some i else find_info_from cmp vloc rest (i + 1)

/-- The member `lvar_uservec_t::find_info`; the returned pointer into `lvvec` is
the position of the entry, `NULL` is `none`.  The implementation of
`lvar_locator_t::compare` is outside the header and is passed in as `cmp`. -/
def lvar_uservec_t.find_info (cmp : lvar_locator_t → lvar_locator_t → Int)
    (u : lvar_uservec_t) (vloc : lvar_locator_t) : Option Nat :=
  find_info_from cmp vloc u.lvvec 0

/-- Writing through a pointer to the entry at a position: the entry is replaced
by its image under `f`. -/
def update_at {α : Type} (f : α → α) : List α → Nat → List α
  | [], _ => []
  | x :: xs, 0 => f x :: xs
  | x :: xs, n + 1 => x :: update_at f xs n

/-- The member `lvar_uservec_t::keep_info`:
`p = find_info(v); if ( p != NULL ) p->set_keep();`. -/
def lvar_uservec_t.keep_info (cmp : lvar_locator_t → lvar_locator_t → Int)
    (u : lvar_uservec_t) (v : lvar_t) : lvar_uservec_t :=
  match u.find_info cmp v.tolvar_locator_t with
  | some p => { u with lvvec := update_at lvar_saved_info_t.set_keep u.lvvec p }
  | none => u

/-- A plain locator comparison for examples: `-1/0/1` by definition address
with equal locations, and unequal otherwise. -/
def locator_cmp_example (a b : lvar_locator_t) : Int :=
  if a = b then 0 else if a.defea < b.defea then -1 else 1

/-- An example override table: two entries, at stack offsets 8 and 16. -/
def uservec_example : lvar_uservec_t :=
  { lvvec := [{ ll := { location := .stkoff 8, defea := 0x1000 }, name := "count" },
              { ll := { location := .stkoff 16, defea := 0x1010 }, cmt := "buffer" }],
    sizes := [4, 8] }

/-- An example variable living at stack offset 16. -/
def lvar_example : lvar_t :=
  { location := .stkoff 16, defea := 0x1010, name := "v2", width := 8 }

/-! ## Tree nodes and their storage -/

/-- Does operator use the `x` field of `cexpr_t`? -/
def op_uses_x (op : ctype_t) : Bool :=
  decide (ctype_t.cot_comma.val ≤ op.val) && decide (op.val ≤ ctype_t.cot_memptr.val)

/-- Does operator use the `y` field of `cexpr_t`? -/
def op_uses_y (op : ctype_t) : Bool :=
  (decide (ctype_t.cot_comma.val ≤ op.val) && decide (op.val ≤ ctype_t.cot_fdiv.val))
    || decide (op = ctype_t.cot_idx)

/-- Does operator use the `z` field of `cexpr_t`? -/
def op_uses_z (op : ctype_t) : Bool := decide (op = ctype_t.cot_tern)

/-- Raw pointers are addresses; `NULL` is address 0. -/
abbrev ptr_t := Nat

def NULL : ptr_t := 0

/-- The free store: the addresses of the objects made with `new` and not yet
released.  An address stands for the object together with everything the
object's own destructor releases. -/
abbrev heap_t := List ptr_t

/-- The C++ expression `delete p`: nothing happens for `NULL`, a live object is
released, and releasing an address that is not live (released before) has no
defined result. -/
def delete (h : heap_t) (p : ptr_t) : Option heap_t :=
  if p = NULL then some h
  else if p ∈ h then some (h.filter (fun q => decide (q ≠ p)))
  else none

/-- Deleting several pointers one after the other. -/
def delete_all (h : heap_t) : List ptr_t → Option heap_t
  | [] => some h
  | p :: ps => (delete h p).bind (fun h1 => delete_all h1 ps)

/-- Basic ctree element `citem_t`. -/
structure citem_t where
  ea : ea_t := BADADDR
  op : ctype_t := ctype_t.cot_empty
  label_num : Int := -1
  index : Int := -1
  deriving DecidableEq, Repr

/-- Ctree element: expression, `cexpr_t`.  The anonymous union is kept as its
three words: `x` (shared by `n`, `fpc`, `insn`, `helper`, `string`), `y` (shared
by `a` and `m`) and `z` (shared by `ptrsize`). -/
structure cexpr_t extends citem_t where
  x : ptr_t := NULL
  y : ptr_t := NULL
  z : ptr_t := NULL
  type : tinfo_t := {}
  exflags : Nat := 0
  deriving DecidableEq, Repr

/-- Ctree element: statement, `cinsn_t`.  The union of detail pointers is one
word, named after its first member `cblock`. -/
structure cinsn_t extends citem_t where
  op := ctype_t.cit_empty
  cblock : ptr_t := NULL
  deriving DecidableEq, Repr

/-- Statement with an expression, `ceinsn_t`. -/
structure ceinsn_t where
  expr : cexpr_t := {}
  deriving DecidableEq, Repr

/-- If statement `cif_t`. -/
structure cif_t extends ceinsn_t where
  ithen : ptr_t := NULL
  ielse : ptr_t := NULL
  deriving DecidableEq, Repr

/-- Base class for loop statements `cloop_t`. -/
structure cloop_t extends ceinsn_t where
  body : ptr_t := NULL
  deriving DecidableEq, Repr

/-- The inline `cif_t::cleanup`: `{ delete ithen; delete ielse; }`.  The object
itself is not written to. -/
def cif_t.cleanup (c : cif_t) (h : heap_t) : Option heap_t :=
  (delete h c.ithen).bind (fun h1 => delete h1 c.ielse)

/-- The inline `cloop_t::cleanup`: `{ delete body; }`.  The object itself is not
written to. -/
def cloop_t.cleanup (c : cloop_t) (h : heap_t) : Option heap_t :=
  delete h c.body

/-- The children an expression owns, read off the union by `op` as the field
comments say: the number, floating constant, embedded statement, helper name or
string for those kinds, the operand of `sizeof(x)`, the call object and
argument list for `cot_call`, and the operands the operator uses otherwise. -/
def cexpr_t.children (e : cexpr_t) : List ptr_t :=
  match e.op with
  | .cot_num | .cot_fnum | .cot_insn | .cot_helper | .cot_str | .cot_sizeof => [e.x]
  | .cot_call => [e.x, e.y]
  | op =>
    (if op_uses_x op then [e.x] else []) ++ (if op_uses_y op then [e.y] else [])
      ++ (if op_uses_z op then [e.z] else [])

/-- The children a statement owns: the detail object of every kind that has
one. -/
def cinsn_t.children (i : cinsn_t) : List ptr_t :=
  match i.op with
  | .cit_block | .cit_expr | .cit_if | .cit_for | .cit_while | .cit_do | .cit_switch
  | .cit_return | .cit_goto | .cit_asm => [i.cblock]
  | _ => []

/-- Modelled from the spec: `cexpr_t::cleanup` is implemented outside the
header; it "properly deletes all children and sets the item type to
cot_empty". -/
def cexpr_t.cleanup (e : cexpr_t) (h : heap_t) : Option (cexpr_t × heap_t) :=
  (delete_all h e.children).map (fun h1 => ({ e with op := ctype_t.cot_empty }, h1))

/-- Modelled from the spec: `cinsn_t::cleanup` is implemented outside the
header; it "properly deletes all children and sets the item type to
cit_empty". -/
def cinsn_t.cleanup (i : cinsn_t) (h : heap_t) : Option (cinsn_t × heap_t) :=
  (delete_all h i.children).map (fun h1 => ({ i with op := ctype_t.cit_empty }, h1))

/-- The pointers among `ps` that point somewhere. -/
def non_null (ps : List ptr_t) : List ptr_t := ps.filter (fun p => decide (p ≠ NULL))

/-- The owned pointers can all be released: each is `NULL` or live, and no
object is owned twice. -/
def releasable (h : heap_t) (ps : List ptr_t) : Prop :=
  (∀ p ∈ ps, p = NULL ∨ p ∈ h) ∧ (non_null ps).Nodup

/-! ## Overlap of variable locations -/

/-- Modelled from the spec: the storage a location of width `w` occupies, as a
set of byte ranges: a register or a stack slot is one range of `w` bytes, a
register pair holds one half of the value in each register, a scattered
location is the union of its pieces. -/
def vdloc_t.occupied (loc : vdloc_t) (w : Nat) : List argpart_t :=
  match loc with
  | .none => []
  | .reg1 r => [⟨.reg, r, w⟩]
  | .reg2 r1 r2 => [⟨.reg, r1, w - w / 2⟩, ⟨.reg, r2, w / 2⟩]
  | .stkoff off => [⟨.stk, off, w⟩]
  | .scattered parts => parts

/-- Two byte ranges intersect: same storage class and a common byte. -/
def ranges_intersect (a b : argpart_t) : Bool :=
  decide (a.storage = b.storage) &&
    decide (max a.start b.start < min (a.start + a.size) (b.start + b.size))

/-- Modelled from the spec: `arglocs_overlap` is implemented outside the header;
"two locations overlap if their occupied storage ranges intersect", each
location being "reduced to an occupied-range set before intersection is
tested". -/
def arglocs_overlap (loc1 : vdloc_t) (w1 : Nat) (loc2 : vdloc_t) (w2 : Nat) : Bool :=
  (loc1.occupied w1).any (fun a => (loc2.occupied w2).any (fun b => ranges_intersect a b))

/-- Conversion of an `int` to the unsigned 64-bit `size_t`; in the 64-bit
address build `asize_t` is the same type. -/
def to_size_t (w : Int) : Nat := (w % 2 ^ 64).toNat

/-- The member `lvar_t::has_common`:
`return arglocs_overlap(location, width, v.location, v.width);`. -/
def lvar_t.has_common (a v : lvar_t) : Bool :=
  arglocs_overlap a.location (to_size_t a.width) v.location (to_size_t v.width)

/-- The member `lvar_t::has_common_bit`:
`return arglocs_overlap(location, width, loc, width2);`. -/
def lvar_t.has_common_bit (a : lvar_t) (loc : vdloc_t) (width2 : Nat) : Bool :=
  arglocs_overlap a.location (to_size_t a.width) loc width2

/-! ## Ctree traversal -/

def CV_FAST : Nat := 0x0000
def CV_PRUNE : Nat := 0x0001
def CV_PARENTS : Nat := 0x0002
def CV_POST : Nat := 0x0004
def CV_RESTART : Nat := 0x0008
def CV_INSNS : Nat := 0x0010

mutual

/-- An expression together with the items it owns, after `cexpr_t`: the
operands `x`, `y`, `z`, the argument list `a` of a call and the statement
`insn` of a `cot_insn`.  An operand is absent when the kind does not use the
slot or the slot holds something that is not an item. -/
inductive cexpr_tree : Type
  | mk (ea : ea_t) (op : ctype_t) (x y z : Option cexpr_tree) (a : List cexpr_tree)
      (insn : Option cinsn_tree)

/-- A statement together with its details, after `cinsn_t`. -/
inductive cinsn_tree : Type
  | mk (ea : ea_t) (op : ctype_t) (details : cinsn_details)

/-- The details of a statement, after the union in `cinsn_t` and the
structures `cblock_t`, `cif_t`, `cfor_t`, `cwhile_t`, `cdo_t`, `cswitch_t` and
`creturn_t`, with the members in the order of their declaration (those of the
base classes `ceinsn_t` and `cloop_t` first).  `none` stands for the kinds
that own no items. -/
inductive cinsn_details : Type
  | none
  | cblock (items : List cinsn_tree)
  | cexpr (expr : cexpr_tree)
  | cif (expr : cexpr_tree) (ithen ielse : Option cinsn_tree)
  | cfor (expr : cexpr_tree) (body : Option cinsn_tree) (init step : cexpr_tree)
  | cwhile (expr : cexpr_tree) (body : Option cinsn_tree)
  | cdo (expr : cexpr_tree) (body : Option cinsn_tree)
  | cswitch (expr : cexpr_tree) (cases : List cinsn_tree)
  | creturn (expr : cexpr_tree)

end

/-- Any ctree item, `citem_t`: an expression or a statement. -/
inductive citem_tree : Type
  | expr (e : cexpr_tree)
  | insn (i : cinsn_tree)

/-- A ctree in the form the walk works on: for each item its address, its
kind and its sub-items one after the other.  `cexpr_tree.item` and
`cinsn_tree.item` compute this form from the members of each item; the order
of the sub-items is decided there, not in the tree that is walked. -/
inductive ctree_t : Type
  | node (ea : ea_t) (op : ctype_t) (kids : List ctree_t)
  deriving Repr

def ctree_t.ea : ctree_t → ea_t
  | .node ea _ _ => ea

def ctree_t.op : ctree_t → ctype_t
  | .node _ op _ => op

def ctree_t.kids : ctree_t → List ctree_t
  | .node _ _ kids => kids

mutual

/-- Modelled from the spec: the items the walk enters below an expression, in
the order of the members of `cexpr_t`: the first operand (where `op_uses_x`
holds, and for `cot_sizeof`), the second operand (`op_uses_y`) or, for a call,
the arguments from first to last, the third operand (`op_uses_z`); for a
`cot_insn` the embedded statement. -/
def cexpr_tree.item : cexpr_tree → ctree_t
  | .mk ea op x y z a insn =>
    .node ea op
      ((if op_uses_x op || decide (op = ctype_t.cot_sizeof) then expr_opt x else []) ++
       (if op_uses_y op then expr_opt y else []) ++
       (if op = ctype_t.cot_call then expr_list a else []) ++
       (if op_uses_z op then expr_opt z else []) ++
       (if op = ctype_t.cot_insn then insn_opt insn else []))

/-- An operand that may be absent. -/
def expr_opt : Option cexpr_tree → List ctree_t
  | none => []
  | some e => [e.item]

/-- The expressions of an argument list, first to last. -/
def expr_list : List cexpr_tree → List ctree_t
  | [] => []
  | e :: es => e.item :: expr_list es

/-- A statement as the walk handles it. -/
def cinsn_tree.item : cinsn_tree → ctree_t
  | .mk ea op details => .node ea op (details_items details)

/-- A branch or body that may be NULL. -/
def insn_opt : Option cinsn_tree → List ctree_t
  | none => []
  | some i => [i.item]

/-- The statements of a block or the cases of a switch, first to last. -/
def insn_list : List cinsn_tree → List ctree_t
  | [] => []
  | i :: is => i.item :: insn_list is

/-- Modelled from the spec: the items the walk enters below a statement.  The
spec's example fixes the order for a block (its statements in sequence), an
`if` (the condition, then the branch) and a `return` (its expression); the
other kinds follow the same rule, the order in which the statement is
written: the expression of an expression statement; after the then-branch of
an `if` its else-branch; for a `for` loop the initialization, the condition,
the step, then the body; the condition of a `while` loop, then its body; the
body of a `do` loop, then its condition; the expression of a switch, then its
cases. -/
def details_items : cinsn_details → List ctree_t
  | .none => []
  | .cblock items => insn_list items
  | .cexpr expr => [expr.item]
  | .cif expr ithen ielse => expr.item :: (insn_opt ithen ++ insn_opt ielse)
  | .cfor expr body init step => init.item :: expr.item :: step.item :: insn_opt body
  | .cwhile expr body => expr.item :: insn_opt body
  | .cdo expr body => insn_opt body ++ [expr.item]
  | .cswitch expr cases => expr.item :: insn_list cases
  | .creturn expr => [expr.item]

end

/-- An item of either kind as the walk handles it. -/
def citem_tree.item : citem_tree → ctree_t
  | .expr e => e.item
  | .insn i => i.item

/-- A generic helper class that is used for ctree traversal,
`ctree_visitor_t`; `user` stands for the members a derived class adds. -/
structure ctree_visitor_t (σ : Type) where
  cv_flags : Nat
  parents : List ctree_t := []
  user : σ

namespace ctree_visitor_t

variable {σ : Type}

def maintain_parents (v : ctree_visitor_t σ) : Bool := (v.cv_flags &&& CV_PARENTS) != 0
def must_prune (v : ctree_visitor_t σ) : Bool := (v.cv_flags &&& CV_PRUNE) != 0
def must_restart (v : ctree_visitor_t σ) : Bool := (v.cv_flags &&& CV_RESTART) != 0
def is_postorder (v : ctree_visitor_t σ) : Bool := (v.cv_flags &&& CV_POST) != 0
def only_insns (v : ctree_visitor_t σ) : Bool := (v.cv_flags &&& CV_INSNS) != 0
def prune_now (v : ctree_visitor_t σ) : ctree_visitor_t σ :=
  { v with cv_flags := v.cv_flags ||| CV_PRUNE }
def clr_prune (v : ctree_visitor_t σ) : ctree_visitor_t σ :=
  { v with cv_flags := v.cv_flags &&& bit_not32 CV_PRUNE }
def set_restart (v : ctree_visitor_t σ) : ctree_visitor_t σ :=
  { v with cv_flags := v.cv_flags ||| CV_RESTART }
def clr_restart (v : ctree_visitor_t σ) : ctree_visitor_t σ :=
  { v with cv_flags := v.cv_flags &&& bit_not32 CV_RESTART }

end ctree_visitor_t

/-- The four virtual functions a derived visitor redefines.  Each sees the
visitor object and the item and returns its `int` result with the visitor as
it left it. -/
structure visitor_hooks (σ : Type) where
  visit_insn : ctree_visitor_t σ → ctree_t → Int × ctree_visitor_t σ
  visit_expr : ctree_visitor_t σ → ctree_t → Int × ctree_visitor_t σ
  leave_insn : ctree_visitor_t σ → ctree_t → Int × ctree_visitor_t σ
  leave_expr : ctree_visitor_t σ → ctree_t → Int × ctree_visitor_t σ

/-- The hooks as `ctree_visitor_t` itself defines them: `{ return 0; }`. -/
def base_hooks (σ : Type) : visitor_hooks σ :=
  { visit_insn := fun v _ => (0, v), visit_expr := fun v _ => (0, v),
    leave_insn := fun v _ => (0, v), leave_expr := fun v _ => (0, v) }

/-- Outcome of a walk: the `int` result and the visitor afterwards. -/
structure walk_result (σ : Type) where
  code : Int
  visitor : ctree_visitor_t σ

/-- Calling the visit hook that fits the item. -/
def call_visit {σ : Type} (hk : visitor_hooks σ) (v : ctree_visitor_t σ) (item : ctree_t) :
    Int × ctree_visitor_t σ :=
  if is_expr item.op then hk.visit_expr v item else hk.visit_insn v item

/-- Calling the leave hook that fits the item. -/
def call_leave {σ : Type} (hk : visitor_hooks σ) (v : ctree_visitor_t σ) (item : ctree_t) :
    Int × ctree_visitor_t σ :=
  if is_expr item.op then hk.leave_expr v item else hk.leave_insn v item

/-- Entering the children of an item: with parent tracking the item is pushed
on the vector of parents. -/
def push_parent {σ : Type} (v : ctree_visitor_t σ) (item : ctree_t) : ctree_visitor_t σ :=
  if v.maintain_parents then { v with parents := v.parents ++ [item] } else v

/-- Coming back from the children of an item: with parent tracking the item is
popped from the vector of parents. -/
def pop_parent {σ : Type} (c : walk_result σ) : walk_result σ :=
  if c.visitor.maintain_parents then
    { c with visitor := { c.visitor with parents := c.visitor.parents.dropLast } }
  else c

/-- What happens at an item once its children are done (outcome `c`): a
non-zero result is passed up, otherwise in post-order mode the leave hook is
called and its result returned. -/
def after_children {σ : Type} (hk : visitor_hooks σ) (item : ctree_t)
    (c : walk_result σ) : walk_result σ :=
  if c.code ≠ 0 then c
  else if c.visitor.is_postorder then
    ⟨(call_leave hk c.visitor item).1, (call_leave hk c.visitor item).2⟩
  else c

mutual

/-- Modelled from the spec: the walk of `ctree_visitor_t::apply_to` below one
item (the body is outside the header): "recursive pre-order (and, if
requested, post-order) walk; each visited node is offered to a visit hook; a
nonzero hook result aborts the walk immediately and becomes the call's result;
a hook may call prune-now to skip only its own node's children (auto-cleared
after use)"; with `CV_INSNS` expressions are not entered.  The walk keeps no
record of its own: what it does shows in what the hooks do to the visitor. -/
def apply_to_at {σ : Type} (hk : visitor_hooks σ) :
    ctree_t → ctree_visitor_t σ → walk_result σ
  | .node ea op kids, v =>
    if v.only_insns && is_expr op then ⟨0, v⟩
    else if (call_visit hk v (.node ea op kids)).1 ≠ 0 then
      ⟨(call_visit hk v (.node ea op kids)).1, (call_visit hk v (.node ea op kids)).2⟩
    else if (call_visit hk v (.node ea op kids)).2.must_prune then
      after_children hk (.node ea op kids)
        ⟨0, (call_visit hk v (.node ea op kids)).2.clr_prune⟩
    else
      after_children hk (.node ea op kids)
        (pop_parent (apply_to_kids hk kids
          (push_parent (call_visit hk v (.node ea op kids)).2 (.node ea op kids))))

/-- The walk over the children of an item, one after the other, stopping at
the first non-zero result. -/
def apply_to_kids {σ : Type} (hk : visitor_hooks σ) :
    List ctree_t → ctree_visitor_t σ → walk_result σ
  | [], v => ⟨0, v⟩
  | t :: ts, v =>
    if (apply_to_at hk t v).code ≠ 0 then apply_to_at hk t v
    else apply_to_kids hk ts (apply_to_at hk t v).visitor

end

/-- The four hooks by name. -/
inductive hook_t : Type
  | visit_insn
  | visit_expr
  | leave_insn
  | leave_expr
  deriving DecidableEq, Repr

/-- The visit hook that fits an item of kind `op`. -/
def visit_hook (op : ctype_t) : hook_t :=
  if is_expr op then .visit_expr else .visit_insn

/-- The leave hook that fits an item of kind `op`. -/
def leave_hook (op : ctype_t) : hook_t :=
  if is_expr op then .leave_expr else .leave_insn

/-- What a hook of the recording visitor notes down when it is called: which
hook it is, the address and kind of the item it is called on, and the
addresses of the items on the vector of parents at that moment, outermost
first. -/
structure hook_record where
  hook : hook_t
  ea : ea_t
  op : ctype_t
  parents : List ea_t
  deriving DecidableEq, Repr

/-- The body shared by the four hooks of the recording visitor: append the
record of this call to the visitor's list and return 0. -/
def note_call (hook : hook_t) (v : ctree_visitor_t (List hook_record)) (item : ctree_t) :
    Int × ctree_visitor_t (List hook_record) :=
  (0, { v with user := v.user ++ [⟨hook, item.ea, item.op, v.parents.map ctree_t.ea⟩] })

/-- A derived visitor whose only member is the list of the hook calls made on
it so far; each of its four hooks adds its own call to the list. -/
def recording_hooks : visitor_hooks (List hook_record) :=
  { visit_insn := note_call .visit_insn, visit_expr := note_call .visit_expr,
    leave_insn := note_call .leave_insn, leave_expr := note_call .leave_expr }

mutual

/-- The hook calls of a complete walk below one item as the documentation of
the hooks words it: "an item is visited before its children", and with `post`
"after having visited its children" the leave hook is called on it.  `ctx` is
the vector of parents on arrival, which grows by the item for its children
when parents are tracked. -/
def complete_walk (post track : Bool) (ctx : List ea_t) : ctree_t → List hook_record
  | .node ea op kids =>
    ⟨visit_hook op, ea, op, ctx⟩ ::
      (complete_walk_kids post track (if track then ctx ++ [ea] else ctx) kids ++
        (if post then [⟨leave_hook op, ea, op, ctx⟩] else []))

/-- The hook calls of complete walks below the children of an item, one child
after the other. -/
def complete_walk_kids (post track : Bool) (ctx : List ea_t) : List ctree_t → List hook_record
  | [] => []
  | t :: ts => complete_walk post track ctx t ++ complete_walk_kids post track ctx ts

end

/-- An expression that owns no items, such as a variable or a number. -/
def cexpr_tree.leaf (ea : ea_t) (op : ctype_t) : cexpr_tree :=
  .mk ea op none none none [] none

/-- An expression with two operands. -/
def cexpr_tree.binary (ea : ea_t) (op : ctype_t) (x y : cexpr_tree) : cexpr_tree :=
  .mk ea op (some x) (some y) none [] none

/-- The block `{ x = 1; if (y) return x; z = x + y; }`, every item at an
address of its own: the block 0x10; the statement `x = 1;` 0x11 with its
assignment 0x12 of the number 0x14 to the variable 0x13; the `if` 0x20 with
its condition `y` 0x21 and the statement `return x;` 0x22 returning the
variable 0x23; the statement `z = x + y;` 0x30 with its assignment 0x31 to the
variable 0x32 of the sum 0x33 of the variables 0x34 and 0x35. -/
def scenario_insn : cinsn_tree :=
  .mk 0x10 .cit_block (.cblock [
    .mk 0x11 .cit_expr (.cexpr
      (.binary 0x12 .cot_asg (.leaf 0x13 .cot_var) (.leaf 0x14 .cot_num))),
    .mk 0x20 .cit_if (.cif (.leaf 0x21 .cot_var)
      (some (.mk 0x22 .cit_return (.creturn (.leaf 0x23 .cot_var)))) none),
    .mk 0x30 .cit_expr (.cexpr
      (.binary 0x31 .cot_asg (.leaf 0x32 .cot_var)
        (.binary 0x33 .cot_add (.leaf 0x34 .cot_var) (.leaf 0x35 .cot_var))))])

/-- The example block as the walk handles it. -/
def scenario_block : ctree_t := scenario_insn.item

/-- The ancestors' visits come first: whenever a hook is called with the item
at address `a` on the vector of parents (the chain above `a` being
`ctx ++ pre`, where `ctx` was there before the walk), the visit hook has been
called on that item before, and all the calls in between were made below that
item. -/
def visits_come_first (ctx : List ea_t) (calls : List hook_record) : Prop :=
  ∀ (l1 : List hook_record) (r : hook_record) (l3 : List hook_record)
    (pre : List ea_t) (a : ea_t) (suf : List ea_t),
    calls = l1 ++ r :: l3 → r.parents = ctx ++ pre ++ a :: suf →
    ∃ (m1 : List hook_record) (op : ctype_t) (m2 : List hook_record),
      l1 = m1 ++ ⟨visit_hook op, a, op, ctx ++ pre⟩ :: m2 ∧
      ∀ r2 ∈ m2, ctx ++ pre ++ [a] <+: r2.parents

/-- The ancestors' leaves come last: whenever a hook is called with the item
at address `a` on the vector of parents (the chain above `a` being
`ctx ++ pre`), the leave hook is called on that item afterwards, and all the
calls in between are made below that item. -/
def leaves_come_last (ctx : List ea_t) (calls : List hook_record) : Prop :=
  ∀ (l1 : List hook_record) (r : hook_record) (l3 : List hook_record)
    (pre : List ea_t) (a : ea_t) (suf : List ea_t),
    calls = l1 ++ r :: l3 → r.parents = ctx ++ pre ++ a :: suf →
    ∃ (m2 : List hook_record) (op : ctype_t) (m3 : List hook_record),
      l3 = m2 ++ ⟨leave_hook op, a, op, ctx ++ pre⟩ :: m3 ∧
      ∀ r2 ∈ m2, ctx ++ pre ++ [a] <+: r2.parents

/-! ## Annotation tables and their persistence -/

/-- Operand locator `operand_locator_t`. -/
structure operand_locator_t where
  ea : ea_t
  opnum : Int
  deriving DecidableEq, Repr

/-- Modelled from the spec: `operand_locator_t::compare` is implemented outside
the header; comparisons return -1/0/1 and the key is the pair (instruction
address, operand index). -/
def operand_locator_t.compare (a r : operand_locator_t) : Int :=
  if a.ea < r.ea then -1 else if r.ea < a.ea then 1
  else if a.opnum < r.opnum then -1 else if r.opnum < a.opnum then 1 else 0

/-- The `operator<` that `DECLARE_COMPARISONS(operand_locator_t)` defines:
`return compare(r) < 0;`. -/
def operand_locator_t.lt (a r : operand_locator_t) : Bool := decide (a.compare r < 0)

/-- Generic ctree element locator `citem_locator_t`. -/
structure citem_locator_t where
  ea : ea_t
  op : ctype_t
  deriving DecidableEq, Repr

/-- Modelled from the spec: `citem_locator_t::compare` is implemented outside
the header; comparisons return -1/0/1 and the key is the pair (address,
discriminant). -/
def citem_locator_t.compare (a r : citem_locator_t) : Int :=
  if a.ea < r.ea then -1 else if r.ea < a.ea then 1
  else if a.op.val < r.op.val then -1 else if r.op.val < a.op.val then 1 else 0

/-- The `operator<` that `DECLARE_COMPARISONS(citem_locator_t)` defines:
`return compare(r) < 0;`. -/
def citem_locator_t.lt (a r : citem_locator_t) : Bool := decide (a.compare r < 0)

/-- Number representation `number_format_t`; the `char` members `props` and
`serial` are kept as bit patterns. -/
structure number_format_t where
  flags : Nat := 0
  opnum : Int := 0
  props : Nat := 0
  serial : Nat := 0
  org_nbytes : Int := 0
  type_name : qstring := ""
  deriving DecidableEq, Repr

/-- The built-in `<` of `int` keys. -/
def int_lt (a b : Int) : Bool := decide (a < b)

/-- The built-in `<` of `ea_t` keys. -/
def ea_lt (a b : ea_t) : Bool := decide (a < b)

/-- User-defined labels: `typedef std::map<int, qstring> user_labels_t;`. -/
abbrev user_labels_t := std_map Int qstring

/-- Number formats are attached to (ea, opnum) pairs:
`typedef std::map<operand_locator_t, number_format_t> user_numforms_t;`. -/
abbrev user_numforms_t := std_map operand_locator_t number_format_t

/-- Item flags are attached to (ea, op) pairs:
`typedef std::map<citem_locator_t, int32> user_iflags_t;`. -/
abbrev user_iflags_t := std_map citem_locator_t Int

/-- Union field selections: `typedef std::map<ea_t, intvec_t> user_unions_t;`. -/
abbrev user_unions_t := std_map ea_t (List Int)

/-- Modelled from the spec: the part of the database that holds the
annotations, "persisted per function (keyed by function entry address) and
loaded/saved as whole-table snapshots": for each of the five kinds, the saved
entry sequences by function address. -/
structure database_t where
  labels : std_map ea_t (List (Int × qstring)) := []
  cmts : std_map ea_t (List (treeloc_t × citem_cmt_t)) := []
  numforms : std_map ea_t (List (operand_locator_t × number_format_t)) := []
  iflags : std_map ea_t (List (citem_locator_t × Int)) := []
  unions : std_map ea_t (List (ea_t × List Int)) := []
  deriving DecidableEq, Repr

/-- Modelled from the spec: `save_user_labels` (a dispatcher stub in the
header) stores the snapshot of the table under the function address. -/
def save_user_labels (db : database_t) (func_ea : ea_t) (t : user_labels_t) : database_t :=
  { db with labels := std_map.assign ea_lt func_ea t db.labels }

/-- Modelled from the spec: `save_user_cmts` stores the snapshot of the table
under the function address. -/
def save_user_cmts (db : database_t) (func_ea : ea_t) (t : user_cmts_t) : database_t :=
  { db with cmts := std_map.assign ea_lt func_ea t db.cmts }

/-- Modelled from the spec: `save_user_numforms` stores the snapshot of the
table under the function address. -/
def save_user_numforms (db : database_t) (func_ea : ea_t) (t : user_numforms_t) :
    database_t :=
  { db with numforms := std_map.assign ea_lt func_ea t db.numforms }

/-- Modelled from the spec: `save_user_iflags` stores the snapshot of the table
under the function address. -/
def save_user_iflags (db : database_t) (func_ea : ea_t) (t : user_iflags_t) : database_t :=
  { db with iflags := std_map.assign ea_lt func_ea t db.iflags }

/-- Modelled from the spec: `save_user_unions` stores the snapshot of the table
under the function address. -/
def save_user_unions (db : database_t) (func_ea : ea_t) (t : user_unions_t) : database_t :=
  { db with unions := std_map.assign ea_lt func_ea t db.unions }

/-- Modelled from the spec: `restore_user_labels` makes a fresh table and
stores the saved entries in it one by one; nothing saved gives `NULL`. -/
def restore_user_labels (db : database_t) (func_ea : ea_t) : Option user_labels_t :=
  (std_map.find ea_lt func_ea db.labels).map (std_map.build int_lt)

/-- Modelled from the spec: `restore_user_cmts` makes a fresh table and stores
the saved entries in it one by one; nothing saved gives `NULL`. -/
def restore_user_cmts (db : database_t) (func_ea : ea_t) : Option user_cmts_t :=
  (std_map.find ea_lt func_ea db.cmts).map (std_map.build treeloc_t.lt)

/-- Modelled from the spec: `restore_user_numforms` makes a fresh table and
stores the saved entries in it one by one; nothing saved gives `NULL`. -/
def restore_user_numforms (db : database_t) (func_ea : ea_t) : Option user_numforms_t :=
  (std_map.find ea_lt func_ea db.numforms).map (std_map.build operand_locator_t.lt)

/-- Modelled from the spec: `restore_user_iflags` makes a fresh table and
stores the saved entries in it one by one; nothing saved gives `NULL`. -/
def restore_user_iflags (db : database_t) (func_ea : ea_t) : Option user_iflags_t :=
  (std_map.find ea_lt func_ea db.iflags).map (std_map.build citem_locator_t.lt)

/-- Modelled from the spec: `restore_user_unions` makes a fresh table and
stores the saved entries in it one by one; nothing saved gives `NULL`. -/
def restore_user_unions (db : database_t) (func_ea : ea_t) : Option user_unions_t :=
  (std_map.find ea_lt func_ea db.unions).map (std_map.build ea_lt)

/-- A function being worked on: its current tree and the database its
annotations are saved in. -/
structure session_t where
  body : ctree_t
  db : database_t

/-- Modelled from the spec: regenerating the tree; "rebuilding always fully
discards the previous tree before constructing the new one; annotation tables
are not discarded". -/
def session_t.rebuild (s : session_t) (new_body : ctree_t) : session_t :=
  { s with body := new_body }

/-! ## Operator predicates and number formats -/

/-- Can operate on UDTs?
`return op == cot_asg || op == cot_comma || op > cot_last;`. -/
def accepts_udts (op : ctype_t) : Bool :=
  decide (op = ctype_t.cot_asg) || decide (op = ctype_t.cot_comma)
    || decide (op.val > ctype_t.cot_last.val)

/-- Is the operator allowed on small struni (structure/union)? -/
def is_allowed_on_small_struni (op : ctype_t) : Bool :=
  decide (op = ctype_t.cit_return)
    || decide (op = ctype_t.cot_asg)
    || decide (op = ctype_t.cot_eq)
    || decide (op = ctype_t.cot_ne)
    || decide (op = ctype_t.cot_comma)
    || decide (op = ctype_t.cot_tern)
    || (decide (op.val > ctype_t.cot_last.val) && decide (op.val < ctype_t.cit_end.val))

def NF_FIXED : Nat := 0x01
def NF_NEGDONE : Nat := 0x02
def NF_BINVDONE : Nat := 0x04
def NF_NEGATE : Nat := 0x08
def NF_BITNOT : Nat := 0x10
def NF_STROFF : Nat := 0x20

/-- The member `number_format_t::is_fixed`: `return props != 0;`. -/
def number_format_t.is_fixed (nf : number_format_t) : Bool := nf.props != 0

/-- The member `number_format_t::needs_to_be_inverted`:
`(props & (NF_NEGATE|NF_BITNOT)) != 0 && (props & (NF_NEGDONE|NF_BINVDONE)) == 0`. -/
def number_format_t.needs_to_be_inverted (nf : number_format_t) : Bool :=
  (nf.props &&& (NF_NEGATE ||| NF_BITNOT)) != 0
    && (nf.props &&& (NF_NEGDONE ||| NF_BINVDONE)) == 0

/-- Whether a property bit is set in `props`. -/
def number_format_t.has_prop (nf : number_format_t) (bit : Nat) : Bool :=
  (nf.props &&& bit) != 0

/-! ## The cache of decompilation results -/

/-- Removal `m.erase(k)` from a `std::map`: the entry with a key equivalent to
`k` goes, all others stay. -/
def std_map.erase {K V : Type} (lt : K → K → Bool) (k : K) (m : std_map K V) : std_map K V :=
  m.filter (fun e => lt e.1 k || lt k e.1)

/-- The value `m.erase(k)` returns: the number of entries removed. -/
def std_map.erase_count {K V : Type} (lt : K → K → Bool) (k : K) (m : std_map K V) : Nat :=
  m.length - (std_map.erase lt k m).length

/-- Modelled from the spec: the cache of decompilation results, "a process-wide
memoization cache keyed by function address" holding one reference-counted
pointer `cfuncptr_t` per cached address. -/
abbrev cfunc_cache_t := std_map ea_t ptr_t

/-- Modelled from the spec: `has_cached_cfunc` (a dispatcher stub in the
header): "Do we have a cached decompilation result for 'ea'?". -/
def has_cached_cfunc (cache : cfunc_cache_t) (ea : ea_t) : Bool :=
  (std_map.find ea_lt ea cache).isSome

/-- Modelled from the spec: `mark_cfunc_dirty` (a dispatcher stub in the
header): "Erases a cache entry for the specified function", returning "if a
cache entry existed".  The result is paired with the cache afterwards. -/
def mark_cfunc_dirty (cache : cfunc_cache_t) (ea : ea_t) : Bool × cfunc_cache_t :=
  (std_map.erase_count ea_lt ea cache != 0, std_map.erase ea_lt ea cache)

/-- Modelled from the spec: `clear_cached_cfuncs` (a dispatcher stub in the
header): "Flush all cached decompilation results". -/
def clear_cached_cfuncs (_cache : cfunc_cache_t) : cfunc_cache_t := []

/-! ## Warnings and text positions -/

/-- The bytes of a string up to its terminating zero; a character stands for
the byte with its code. -/
def c_str (s : qstring) : List Nat :=
  (s.data.map Char.toNat).takeWhile (fun b => b != 0)

/-- A `strcmp` over byte sequences as the C library may implement it: the
difference of the first two bytes that differ, the end of a string counting as
the zero byte. -/
def strcmp_bytes : List Nat → List Nat → Int
  | [], [] => 0
  | [], b :: _ => 0 - (b : Int)
  | a :: _, [] => (a : Int)
  | a :: as, b :: bs => if a = b then strcmp_bytes as bs else (a : Int) - (b : Int)

/-- The byte-difference `strcmp` on strings. -/
def strcmp_diff (s1 s2 : qstring) : Int := strcmp_bytes (c_str s1) (c_str s2)

/-- Warnings `hexwarn_t`; the warning identifier `warnid_t` is kept as its
integer value. -/
structure hexwarn_t where
  ea : ea_t
  id : Int
  text : qstring
  deriving DecidableEq, Repr

/-- The member `hexwarn_t::compare`, with the C library function `strcmp` as a
parameter. -/
def hexwarn_t.compare (strcmp : qstring → qstring → Int) (a r : hexwarn_t) : Int :=
  if a.ea < r.ea then -1
  else if a.ea > r.ea then 1
  else if a.id < r.id then -1
  else if a.id > r.id then 1
  else strcmp a.text r.text

/-- Cursor position in the output text, `ctext_position_t`. -/
structure ctext_position_t where
  lnnum : Int
  x : Int
  y : Int
  deriving DecidableEq, Repr

/-- The member `ctext_position_t::compare`. -/
def ctext_position_t.compare (a r : ctext_position_t) : Int :=
  if a.lnnum < r.lnnum then -1
  else if a.lnnum > r.lnnum then 1
  else if a.x < r.x then -1
  else if a.x > r.x then 1
  else 0

/-! ## Items in memory -/

/-- An object a `citem_t *` can point to. -/
inductive item_obj : Type
  | expr (e : cexpr_t)
  | insn (i : cinsn_t)
  deriving DecidableEq, Repr

/-- Reading `p->op` through a `citem_t *`. -/
def item_obj.op : item_obj → ctype_t
  | .expr e => e.op
  | .insn i => i.op

/-- Reading `((cexpr_t*)p)->x`: the first word of the union. -/
def item_obj.x : item_obj → ptr_t
  | .expr e => e.x
  | .insn i => i.cblock

/-- The objects of a ctree in memory: the item at an address, and for the
address of a `carglist_t` the addresses of its elements. -/
structure ctree_mem where
  items : ptr_t → Option item_obj
  arglists : ptr_t → Option (List ptr_t)

/-- The inline `cexpr_t::get_1num_op(o1, o2)`.  `o1`, `o2` are what `*o1`, `*o2`
hold before the call; the result is the returned `bool` with what they hold
afterwards.  Reading `op` through a pointer to no object has no result. -/
def cexpr_t.get_1num_op (mem : ctree_mem) (e : cexpr_t) (o1 o2 : ptr_t) :
    Option (Bool × ptr_t × ptr_t) :=
  match mem.items e.x with
  | none => none
  | some xo =>
    if xo.op = ctype_t.cot_num then some (true, e.x, e.y)
    else
      match mem.items e.y with
      | none => none
      | some yo =>
        if yo.op ≠ ctype_t.cot_num then some (false, o1, o2)
        else some (true, e.y, e.x)

/-- The member `cexpr_t::is_call_object_of`, for the expression at address
`this`: `parent != NULL && parent->op == cot_call && ((cexpr_t*)parent)->x == this`. -/
def cexpr_t.is_call_object_of (mem : ctree_mem) (this parent : ptr_t) : Option Bool :=
  if parent = NULL then some false
  else
    match mem.items parent with
    | none => none
    | some p => some (decide (p.op = ctype_t.cot_call) && decide (p.x = this))

/-- The member `cexpr_t::is_call_arg_of`, for the expression at address `this`:
`parent != NULL && parent->op == cot_call && ((cexpr_t*)parent)->x != this`. -/
def cexpr_t.is_call_arg_of (mem : ctree_mem) (this parent : ptr_t) : Option Bool :=
  if parent = NULL then some false
  else
    match mem.items parent with
    | none => none
    | some p => some (decide (p.op = ctype_t.cot_call) && decide (p.x ≠ this))

/-- The addresses of the arguments of the call at `parent`: the elements of the
`carglist_t` its `a` member points to; empty when there is no such call. -/
def call_args (mem : ctree_mem) (parent : ptr_t) : List ptr_t :=
  match mem.items parent with
  | some (.expr p) =>
    if p.op = ctype_t.cot_call then (mem.arglists p.y).getD [] else []
  | _ => []

/-- An example memory: the call `f(1)` at address 100, with the called object at
101, its argument list at 200 holding the argument at 300, and an unrelated
number at 400. -/
def call_mem_example : ctree_mem :=
  { items := fun p =>
      if p = 100 then some (.expr { op := ctype_t.cot_call, x := 101, y := 200 })
      else if p = 101 then some (.expr { op := ctype_t.cot_obj })
      else if p = 300 then some (.expr { op := ctype_t.cot_num })
      else if p = 400 then some (.expr { op := ctype_t.cot_num })
      else none,
    arglists := fun p => if p = 200 then some [300] else none }

/-- An example memory for a sum: the variable at 10 and the number at 20. -/
def sum_mem_example : ctree_mem :=
  { items := fun p =>
      if p = 10 then some (.expr { op := ctype_t.cot_var })
      else if p = 20 then some (.expr { op := ctype_t.cot_num })
      else none,
    arglists := fun _ => none }

/-! ## Further members -/

/-- The member `cexpr_t::theother`: `return what == x ? y : x;`. -/
def cexpr_t.theother (e : cexpr_t) (what : ptr_t) : ptr_t :=
  if what = e.x then e.y else e.x

/-- The member `lvar_t::set_reg_name`:
`name = n; flags &= ~CVAR_USED; flags |= CVAR_NAME;`. -/
def lvar_t.set_reg_name (v : lvar_t) (n : qstring) : lvar_t :=
  { v with name := n, flags := (v.flags &&& bit_not32 CVAR_USED) ||| CVAR_NAME }

/-- A `strcmp` of the C library: its result has the sign that the comparison of
the two strings byte by byte gives; the magnitude is left open. -/
def strcmp_conforms (strcmp : qstring → qstring → Int) : Prop :=
  ∀ s1 s2, Int.sign (strcmp s1 s2) = Int.sign (strcmp_diff s1 s2)

namespace hexwarn_t

/-- The `operator==` of `DECLARE_COMPARISON_OPERATORS`: `compare(r) == 0`. -/
def eq (strcmp : qstring → qstring → Int) (a r : hexwarn_t) : Bool :=
  decide (compare strcmp a r = 0)

/-- The `operator!=` of `DECLARE_COMPARISON_OPERATORS`: `compare(r) != 0`. -/
def ne (strcmp : qstring → qstring → Int) (a r : hexwarn_t) : Bool :=
  decide (compare strcmp a r ≠ 0)

/-- The `operator<` of `DECLARE_COMPARISON_OPERATORS`: `compare(r) < 0`. -/
def lt (strcmp : qstring → qstring → Int) (a r : hexwarn_t) : Bool :=
  decide (compare strcmp a r < 0)

/-- The `operator>` of `DECLARE_COMPARISON_OPERATORS`: `compare(r) > 0`. -/
def gt (strcmp : qstring → qstring → Int) (a r : hexwarn_t) : Bool :=
  decide (compare strcmp a r > 0)

/-- The `operator<=` of `DECLARE_COMPARISON_OPERATORS`: `compare(r) <= 0`. -/
def le (strcmp : qstring → qstring → Int) (a r : hexwarn_t) : Bool :=
  decide (compare strcmp a r ≤ 0)

/-- The `operator>=` of `DECLARE_COMPARISON_OPERATORS`: `compare(r) >= 0`. -/
def ge (strcmp : qstring → qstring → Int) (a r : hexwarn_t) : Bool :=
  decide (compare strcmp a r ≥ 0)

end hexwarn_t

/-! ## Theorems -/

/-- C1: `is_expr` holds exactly when `op <= cot_last`; it is true for the
expression kinds (values 0..69), false for the statement kinds (values 70..82)
and for `cit_end` (83), so every discriminant falls in exactly one class. -/
theorem is_expr_classifies (op : ctype_t) :
    (is_expr op = true ↔ op.val ≤ ctype_t.cot_last.val) ∧
    ctype_t.cot_last.val = 69 ∧
    (is_expr op = true ↔ op.val ≤ 69) ∧
    (is_expr op = false ↔ 70 ≤ op.val ∧ op.val ≤ 83) ∧
    (is_expr ctype_t.cit_end = false) ∧
    (is_expr op = true ∨ is_expr op = false) ∧
    ¬ (is_expr op = true ∧ is_expr op = false) := by
  cases op <;> simp [is_expr, ctype_t.val, ctype_t.cot_last]

/-! ### Ordered containers -/

namespace std_map

variable {K V : Type} {lt : K → K → Bool}

theorem find_assign_self (h : strict_order lt) (k : K) (v : V) (m : std_map K V) :
    find lt k (assign lt k v m) = some v := by
  induction m with
  | nil => simp [assign, find, h.irrefl]
  | cons e rest ih =>
    obtain ⟨k0, v0⟩ := e
    by_cases h1 : lt k k0 = true
    · simp [assign, find, h1, h.irrefl]
    · by_cases h2 : lt k0 k = true
      · simp [assign, find, h1, h2, ih]
      · simp [assign, find, h1, h2]

theorem find_assign_other (h : strict_order lt) (k q : K) (v : V) (m : std_map K V)
    (hne : q ≠ k) : find lt q (assign lt k v m) = find lt q m := by
  have hkq : ¬ (lt k q = false ∧ lt q k = false) := fun hh => hne (h.total k q hh.1 hh.2).symm
  induction m with
  | nil =>
    simp only [assign, find]
    by_cases a : lt k q = true <;> by_cases b : lt q k = true <;> simp_all
  | cons e rest ih =>
    obtain ⟨k0, v0⟩ := e
    by_cases h1 : lt k k0 = true
    · simp only [assign, h1, if_true]
      rw [find]
      by_cases a : lt k q = true <;> by_cases b : lt q k = true <;> simp_all
    · by_cases h2 : lt k0 k = true
      · simp [assign, find, h1, h2, ih]
      · have hk : k = k0 := h.total k k0 (by simpa using h1) (by simpa using h2)
        subst hk
        simp only [assign, h1, if_false, find]
        by_cases a : lt k q = true <;> by_cases b : lt q k = true <;> simp_all

theorem mem_assign (k : K) (v : V) (m : std_map K V) (e : K × V)
    (he : e ∈ assign lt k v m) : e.1 = k ∨ ∃ d ∈ m, d.1 = e.1 := by
  induction m with
  | nil =>
    rw [assign, List.mem_singleton] at he
    left; rw [he]
  | cons d rest ih =>
    obtain ⟨k0, v0⟩ := d
    rw [assign] at he
    cases h1 : lt k k0
    · cases h2 : lt k0 k
      · simp only [h1, h2, Bool.false_eq_true, if_false] at he
        rcases List.mem_cons.1 he with he | he
        · right; exact ⟨(k0, v0), List.mem_cons_self _ _, by rw [he]⟩
        · right; exact ⟨e, List.mem_cons_of_mem _ he, rfl⟩
      · simp only [h1, h2, Bool.false_eq_true, if_false, if_true] at he
        rcases List.mem_cons.1 he with he | he
        · right; exact ⟨(k0, v0), List.mem_cons_self _ _, by rw [he]⟩
        · rcases ih he with hh | ⟨d, hd, hd1⟩
          · left; exact hh
          · right; exact ⟨d, List.mem_cons_of_mem _ hd, hd1⟩
    · simp only [h1, if_true] at he
      rcases List.mem_cons.1 he with he | he
      · left; rw [he]
      · right; exact ⟨e, he, rfl⟩

theorem assign_ordered (h : strict_order lt) (k : K) (v : V) (m : std_map K V)
    (hm : ordered lt m) : ordered lt (assign lt k v m) := by
  induction m with
  | nil => simp [assign, ordered]
  | cons d rest ih =>
    obtain ⟨k0, v0⟩ := d
    have hm2 := hm
    unfold ordered at hm2
    rw [List.pairwise_cons] at hm2
    obtain ⟨hhead, htail⟩ := hm2
    rw [assign]
    cases h1 : lt k k0
    · cases h2 : lt k0 k
      · simp only [Bool.false_eq_true, if_false]
        unfold ordered
        rw [List.pairwise_cons]
        exact ⟨hhead, htail⟩
      · simp only [Bool.false_eq_true, if_false, if_true]
        unfold ordered
        rw [List.pairwise_cons]
        refine ⟨?_, ih htail⟩
        intro e he
        rcases mem_assign k v rest e he with hh | ⟨d, hd, hd1⟩
        · rw [hh]; exact h2
        · rw [← hd1]; exact hhead d hd
    · simp only [if_true]
      unfold ordered
      rw [List.pairwise_cons]
      refine ⟨?_, hm⟩
      intro e he
      rcases List.mem_cons.1 he with he | he
      · rw [he]; exact h1
      · exact h.trans _ _ _ h1 (hhead e he)

theorem build_ordered (h : strict_order lt) (ops : List (K × V)) :
    ordered lt (build lt ops) := by
  have key : ∀ (ops : List (K × V)) (m : std_map K V), ordered lt m →
      ordered lt (ops.foldl (fun m kv => assign lt kv.1 kv.2 m) m) := by
    intro ops
    induction ops with
    | nil => intro m hm; simpa using hm
    | cons o os ih => intro m hm; exact ih _ (assign_ordered h _ _ _ hm)
  exact key ops [] (by simp [ordered])

theorem ordered_nodup_keys (h : strict_order lt) (m : std_map K V)
    (hm : ordered lt m) : (m.map Prod.fst).Nodup := by
  unfold ordered at hm
  rw [List.Nodup, List.pairwise_map]
  refine hm.imp ?_
  intro a b hab heq
  rw [heq, h.irrefl] at hab
  exact Bool.noConfusion hab

end std_map

/-! ### Comment locations -/

theorem treeloc_lt_strict_order : strict_order treeloc_t.lt := by
  refine ⟨?_, ?_, ?_⟩
  · intro a
    simp [treeloc_t.lt]
  · intro a b c hab hbc
    simp only [treeloc_t.lt, Bool.or_eq_true, Bool.and_eq_true, decide_eq_true_eq] at *
    unfold ea_t item_preciser_t at *
    omega
  · intro a b hab hba
    obtain ⟨ae, ai⟩ := a
    obtain ⟨be, bi⟩ := b
    simp only [treeloc_t.lt, Bool.or_eq_false_iff, Bool.and_eq_false_iff,
      decide_eq_false_iff_not] at hab hba
    unfold ea_t item_preciser_t at *
    have h1 : ae = be := by omega
    subst h1
    have h2 : ai = bi := by omega
    subst h2
    rfl

theorem treeloc_eq_iff (a b : treeloc_t) : treeloc_t.eq a b = true ↔ a = b := by
  obtain ⟨ae, ai⟩ := a
  obtain ⟨be, bi⟩ := b
  simp [treeloc_t.eq]

/-- C2: two comment locations with the same address and different precisers are
unequal keys, ordered strictly one way, and comments stored under both are
both retrievable from the comment table afterwards, each lookup giving its own
comment. -/
theorem user_cmts_distinct_precisers (m : user_cmts_t) (A : ea_t)
    (p q : item_preciser_t) (c1 c2 : citem_cmt_t) (hpq : p ≠ q) :
    treeloc_t.eq ⟨A, p⟩ ⟨A, q⟩ = false ∧
    ((treeloc_t.lt ⟨A, p⟩ ⟨A, q⟩ = true ∧ treeloc_t.lt ⟨A, q⟩ ⟨A, p⟩ = false) ∨
     (treeloc_t.lt ⟨A, q⟩ ⟨A, p⟩ = true ∧ treeloc_t.lt ⟨A, p⟩ ⟨A, q⟩ = false)) ∧
    user_cmts_find ⟨A, p⟩ (user_cmts_assign ⟨A, q⟩ c2 (user_cmts_assign ⟨A, p⟩ c1 m))
      = some c1 ∧
    user_cmts_find ⟨A, q⟩ (user_cmts_assign ⟨A, q⟩ c2 (user_cmts_assign ⟨A, p⟩ c1 m))
      = some c2 ∧
    user_cmts_find ⟨A, p⟩ (user_cmts_assign ⟨A, p⟩ c1 (user_cmts_assign ⟨A, q⟩ c2 m))
      = some c1 ∧
    user_cmts_find ⟨A, q⟩ (user_cmts_assign ⟨A, p⟩ c1 (user_cmts_assign ⟨A, q⟩ c2 m))
      = some c2 := by
  have hne : (⟨A, p⟩ : treeloc_t) ≠ ⟨A, q⟩ := by
    intro h; exact hpq (congrArg treeloc_t.itp h)
  have so := treeloc_lt_strict_order
  refine ⟨?_, ?_, ?_, ?_, ?_, ?_⟩
  · simp [treeloc_t.eq, hpq]
  · simp only [treeloc_t.lt, Bool.or_eq_true, Bool.and_eq_true, decide_eq_true_eq,
      Bool.or_eq_false_iff, Bool.and_eq_false_iff, decide_eq_false_iff_not]
    have hpq2 : @Ne Int p q := hpq
    unfold ea_t item_preciser_t at *
    simp only [lt_irrefl, true_and, false_or, not_true_eq_false, not_false_eq_true, not_lt]
    omega
  · unfold user_cmts_find user_cmts_assign
    rw [std_map.find_assign_other so _ _ _ _ hne, std_map.find_assign_self so]
  · unfold user_cmts_find user_cmts_assign
    rw [std_map.find_assign_self so]
  · unfold user_cmts_find user_cmts_assign
    rw [std_map.find_assign_self so]
  · unfold user_cmts_find user_cmts_assign
    rw [std_map.find_assign_other so _ _ _ _ hne.symm, std_map.find_assign_self so]

/-- Witness for C2 at address 0x401000 with the else-line and the closing-brace
precisers, in an empty comment table. -/
theorem user_cmts_distinct_precisers_witness :
    user_cmts_find ⟨0x401000, ITP_ELSE⟩
      (user_cmts_assign ⟨0x401000, ITP_BRACE2⟩ ⟨"then", false⟩
        (user_cmts_assign ⟨0x401000, ITP_ELSE⟩ ⟨"else", false⟩ [])) = some ⟨"else", false⟩ ∧
    user_cmts_find ⟨0x401000, ITP_BRACE2⟩
      (user_cmts_assign ⟨0x401000, ITP_BRACE2⟩ ⟨"then", false⟩
        (user_cmts_assign ⟨0x401000, ITP_ELSE⟩ ⟨"else", false⟩ [])) = some ⟨"then", false⟩ :=
  let h := user_cmts_distinct_precisers [] 0x401000 ITP_ELSE ITP_BRACE2
    ⟨"else", false⟩ ⟨"then", false⟩ (by decide)
  ⟨h.2.2.1, h.2.2.2.1⟩

/-- C3: `treeloc_t::operator<` is the lexicographic order on `(ea, itp)`; it is
irreflexive and transitive, exactly one of `a < b`, `a == b`, `b < a` holds for
every pair, `==` is equality of both fields, and a comment table built by
storing entries holds each `(ea, itp)` key at most once. -/
theorem treeloc_lt_strict_total_order :
    (∀ a b : treeloc_t, treeloc_t.lt a b = true ↔
      (a.ea < b.ea ∨ (a.ea = b.ea ∧ a.itp < b.itp))) ∧
    (∀ a : treeloc_t, treeloc_t.lt a a = false) ∧
    (∀ a b c : treeloc_t, treeloc_t.lt a b = true → treeloc_t.lt b c = true →
      treeloc_t.lt a c = true) ∧
    (∀ a b : treeloc_t,
      (treeloc_t.lt a b = true ∧ treeloc_t.eq a b = false ∧ treeloc_t.lt b a = false) ∨
      (treeloc_t.lt a b = false ∧ treeloc_t.eq a b = true ∧ treeloc_t.lt b a = false) ∨
      (treeloc_t.lt a b = false ∧ treeloc_t.eq a b = false ∧ treeloc_t.lt b a = true)) ∧
    (∀ a b : treeloc_t, treeloc_t.eq a b = true ↔ (a.ea = b.ea ∧ a.itp = b.itp)) ∧
    (∀ ops : List (treeloc_t × citem_cmt_t),
      ((std_map.build treeloc_t.lt ops).map Prod.fst).Nodup) := by
  refine ⟨?_, treeloc_lt_strict_order.irrefl, treeloc_lt_strict_order.trans, ?_, ?_, ?_⟩
  · intro a b
    simp [treeloc_t.lt]
  · intro a b
    simp only [treeloc_t.lt, treeloc_t.eq, Bool.or_eq_true, Bool.and_eq_true,
      decide_eq_true_eq, Bool.or_eq_false_iff, Bool.and_eq_false_iff,
      decide_eq_false_iff_not]
    unfold ea_t item_preciser_t at *
    omega
  · intro a b
    simp [treeloc_t.eq]
  · intro ops
    exact std_map.ordered_nodup_keys treeloc_lt_strict_order _
      (std_map.build_ordered treeloc_lt_strict_order ops)

/-! ### Local variable flags -/

theorem or_frame (f a b : Nat) (h : a &&& b = 0) : (f ||| a) &&& b = f &&& b := by
  rw [Nat.and_distrib_right, h, Nat.or_zero]

theorem and_frame (f a b : Nat) (h : bit_not32 a &&& b = b) :
    (f &&& bit_not32 a) &&& b = f &&& b := by
  rw [Nat.and_assoc, h]

theorem or_nonzero (x y : Nat) (h : y ≠ 0) : x ||| y ≠ 0 := by
  intro hh
  apply h
  apply Nat.eq_of_testBit_eq
  intro i
  have hi := congrArg (fun z => Nat.testBit z i) hh
  simp only [Nat.testBit_or, Nat.zero_testBit, Bool.or_eq_false_iff] at hi
  rw [hi.2, Nat.zero_testBit]

theorem or_sets (f a b : Nat) (h : a &&& b ≠ 0) : ((f ||| a) &&& b != 0) = true := by
  rw [Nat.and_distrib_right]
  simpa using or_nonzero (f &&& b) (a &&& b) h

theorem and_clears (f a b : Nat) (h : bit_not32 a &&& b = 0) :
    ((f &&& bit_not32 a) &&& b != 0) = false := by
  rw [Nat.and_assoc, h]
  simp

/-- C4 (as stated, refuted): `set_user_name` is named after `has_user_name`, yet
on a default-constructed variable it turns `has_nice_name` from false to
true. -/
theorem lvar_set_user_name_changes_nice_name :
    lvar_mutator.own .set_user_name = .has_user_name ∧
    lvar_property.has_nice_name ≠ lvar_mutator.own .set_user_name ∧
    lvar_property.holds .has_nice_name ({} : lvar_t) = false ∧
    lvar_property.holds .has_nice_name (lvar_mutator.run .set_user_name ({} : lvar_t))
      = true := by
  decide

/-- C4 (amended): every paired flag mutator of `lvar_t` gives its own property
the value it is named for and leaves each other property predicate unchanged,
apart from the listed couplings: `set_user_name` also sets `has_nice_name`,
`set_user_type` also sets `typed`, and the combined `has_user_info` follows the
user-name and user-type bits.  Location, name, comment, type, width, defining
block and divisor are untouched. -/
theorem lvar_flag_mutators_frame (m : lvar_mutator) (p : lvar_property) (v : lvar_t) :
    (m.own.holds (m.run v) = m.is_setter) ∧
    (p ≠ m.own → p ∉ m.also → p.holds (m.run v) = p.holds v) ∧
    lvar_t.has_nice_name (lvar_t.set_user_name v) = true ∧
    lvar_t.typed (lvar_t.set_user_type v) = true ∧
    lvar_t.has_user_info (lvar_t.set_user_name v) = true ∧
    lvar_t.has_user_info (lvar_t.set_user_type v) = true ∧
    ((m.run v).tolvar_locator_t = v.tolvar_locator_t ∧ (m.run v).name = v.name ∧
      (m.run v).cmt = v.cmt ∧ (m.run v).tif = v.tif ∧ (m.run v).width = v.width ∧
      (m.run v).defblk = v.defblk ∧ (m.run v).divisor = v.divisor) := by
  refine ⟨?_, ?_, ?_, ?_, ?_, ?_, ?_⟩
  · cases m <;>
      first
      | exact or_sets _ _ _ (by decide)
      | exact and_clears _ _ _ (by decide)
  · cases m <;> cases p <;>
      first
      | (intro h _; exact (h rfl).elim)
      | (intro _ h; exact (h (by decide)).elim)
      | (intro _ _
         simp only [lvar_mutator.run, lvar_property.holds, lvar_t.used, lvar_t.typed,
           lvar_t.mreg_done, lvar_t.has_nice_name, lvar_t.is_unknown_width,
           lvar_t.has_user_info, lvar_t.has_user_name, lvar_t.has_user_type,
           lvar_t.is_result_var, lvar_t.is_arg_var, lvar_t.is_fake_var,
           lvar_t.is_overlapped_var, lvar_t.is_floating_var, lvar_t.is_spoiled_var,
           lvar_t.is_partialy_typed, lvar_t.is_mapdst_var,
           lvar_t.set_used, lvar_t.clear_used, lvar_t.set_typed, lvar_t.set_non_typed,
           lvar_t.set_user_name, lvar_t.clr_user_name, lvar_t.set_user_type,
           lvar_t.clr_user_type, lvar_t.set_arg_var, lvar_t.clr_arg_var,
           lvar_t.set_fake_var, lvar_t.clr_fake_var, lvar_t.set_overlapped_var,
           lvar_t.clr_overlapped_var, lvar_t.set_floating_var, lvar_t.clr_floating_var,
           lvar_t.set_mapdst_var, lvar_t.clr_mapdst_var, lvar_t.set_partialy_typed,
           lvar_t.clr_partialy_typed, lvar_t.set_unknown_width, lvar_t.clr_unknown_width,
           lvar_t.set_mreg_done, lvar_t.clr_mreg_done, lvar_t.set_spoiled_var,
           lvar_t.clr_spoiled_var]
         first
         | rw [or_frame _ _ _ (by decide)]
         | rw [and_frame _ _ _ (by decide)])
  · exact or_sets _ _ _ (by decide)
  · exact or_sets _ _ _ (by decide)
  · have h := or_sets v.flags (CVAR_NAME ||| CVAR_UNAME) (CVAR_UNAME ||| CVAR_UTYPE) (by decide)
    simp only [lvar_t.has_user_info, lvar_t.set_user_name, h, Bool.true_or]
  · have h := or_sets v.flags (CVAR_TYPE ||| CVAR_UTYPE) (CVAR_UNAME ||| CVAR_UTYPE) (by decide)
    simp only [lvar_t.has_user_info, lvar_t.set_user_type, h, Bool.true_or]
  · cases m <;> exact ⟨rfl, rfl, rfl, rfl, rfl, rfl, rfl⟩

/-- Witness for C4: `set_arg_var` on a default-constructed variable leaves
`used` as it was. -/
theorem lvar_flag_mutators_frame_witness :
    lvar_property.holds .used (lvar_mutator.run .set_arg_var ({} : lvar_t))
      = lvar_property.holds .used ({} : lvar_t) :=
  (lvar_flag_mutators_frame .set_arg_var .used {}).2.1 (by decide) (by decide)

/-! ### Saved user settings -/

/-- C5: `has_info` holds exactly when one of name, type, comment is non-empty;
a default-constructed record has no info and is not kept, and `has_info` reads
neither the locator nor the flags. -/
theorem has_info_iff (s : lvar_saved_info_t) :
    (s.has_info = true ↔ (s.name ≠ "" ∨ s.type.empty = false ∨ s.cmt ≠ "")) ∧
    (({} : lvar_saved_info_t).has_info = false) ∧
    (({} : lvar_saved_info_t).is_kept = false) ∧
    (∀ (ll : lvar_locator_t) (flags : Nat),
      ({ s with ll := ll, flags := flags } : lvar_saved_info_t).has_info = s.has_info) ∧
    (s.set_keep.has_info = s.has_info ∧ s.clear_keep.has_info = s.has_info) := by
  refine ⟨?_, by decide, by decide, fun _ _ => rfl, rfl, rfl⟩
  simp only [lvar_saved_info_t.has_info, Bool.or_eq_true, Bool.not_eq_true', ne_eq,
    ← String.isEmpty_iff, Bool.not_eq_true, or_assoc]

theorem find_info_from_spec (cmp : lvar_locator_t → lvar_locator_t → Int)
    (vloc : lvar_locator_t) (l : List lvar_saved_info_t) (i p : Nat)
    (h : find_info_from cmp vloc l i = some p) :
    ∃ n, p = i + n ∧ (∃ e, l[n]? = some e ∧ cmp e.ll vloc = 0) ∧
      ∀ j < n, ∀ e, l[j]? = some e → cmp e.ll vloc ≠ 0 := by
  induction l generalizing i with
  | nil => simp [find_info_from] at h
  | cons x xs ih =>
    rw [find_info_from] at h
    by_cases hx : cmp x.ll vloc = 0
    · rw [if_pos hx] at h
      refine ⟨0, ?_, ⟨x, by simp, hx⟩, ?_⟩
      · simpa using (Option.some.inj h).symm
      · intro j hj; omega
    · rw [if_neg hx] at h
      obtain ⟨n, hp, ⟨e, he, hc⟩, hlt⟩ := ih (i + 1) h
      refine ⟨n + 1, by omega, ⟨e, by simpa using he, hc⟩, ?_⟩
      intro j hj d hd
      cases j with
      | zero =>
        have hdx : x = d := by simpa using hd
        rw [← hdx]; exact hx
      | succ j => exact hlt j (by omega) d (by simpa using hd)

theorem find_info_from_none (cmp : lvar_locator_t → lvar_locator_t → Int)
    (vloc : lvar_locator_t) (l : List lvar_saved_info_t) (i : Nat) :
    find_info_from cmp vloc l i = none ↔ ∀ e ∈ l, cmp e.ll vloc ≠ 0 := by
  induction l generalizing i with
  | nil => simp [find_info_from]
  | cons x xs ih =>
    rw [find_info_from]
    by_cases hx : cmp x.ll vloc = 0
    · simp [hx]
    · simp [hx, ih]

theorem update_at_length {α : Type} (f : α → α) (l : List α) (n : Nat) :
    (update_at f l n).length = l.length := by
  induction l generalizing n with
  | nil => rfl
  | cons x xs ih => cases n <;> simp [update_at, ih]

theorem update_at_same {α : Type} (f : α → α) (l : List α) (n : Nat) :
    (update_at f l n)[n]? = l[n]?.map f := by
  induction l generalizing n with
  | nil => simp [update_at]
  | cons x xs ih => cases n <;> simp [update_at, ih]

theorem update_at_other {α : Type} (f : α → α) (l : List α) (n j : Nat) (h : j ≠ n) :
    (update_at f l n)[j]? = l[j]? := by
  induction l generalizing n j with
  | nil => simp [update_at]
  | cons x xs ih =>
    cases n with
    | zero =>
      cases j with
      | zero => exact (h rfl).elim
      | succ j => simp [update_at]
    | succ n =>
      cases j with
      | zero => simp [update_at]
      | succ j => simpa [update_at] using ih n j (by omega)

/-- C6: `keep_info(v)` never changes `sizes`, `lmaps`, `stkoff_delta`,
`ulv_flags` or the length of `lvvec`.  When some entry has a locator equal to
that of `v`, the first such entry gets `is_kept()` with name, type, comment and
locator as before, and every other entry is as before; when none has, the whole
record is unchanged. -/
theorem keep_info_frame (cmp : lvar_locator_t → lvar_locator_t → Int)
    (u : lvar_uservec_t) (v : lvar_t) :
    (u.keep_info cmp v).sizes = u.sizes ∧
    (u.keep_info cmp v).lmaps = u.lmaps ∧
    (u.keep_info cmp v).stkoff_delta = u.stkoff_delta ∧
    (u.keep_info cmp v).ulv_flags = u.ulv_flags ∧
    (u.keep_info cmp v).lvvec.length = u.lvvec.length ∧
    ((∃ e ∈ u.lvvec, cmp e.ll v.tolvar_locator_t = 0) →
      ∃ (p : Nat) (e : lvar_saved_info_t),
        u.lvvec[p]? = some e ∧ cmp e.ll v.tolvar_locator_t = 0 ∧
        (∀ j < p, ∀ d : lvar_saved_info_t,
          u.lvvec[j]? = some d → cmp d.ll v.tolvar_locator_t ≠ 0) ∧
        (u.keep_info cmp v).lvvec[p]? = some e.set_keep ∧
        e.set_keep.is_kept = true ∧ e.set_keep.name = e.name ∧
        e.set_keep.type = e.type ∧ e.set_keep.cmt = e.cmt ∧ e.set_keep.ll = e.ll ∧
        (∀ j, j ≠ p → (u.keep_info cmp v).lvvec[j]? = u.lvvec[j]?)) ∧
    ((∀ e ∈ u.lvvec, cmp e.ll v.tolvar_locator_t ≠ 0) → u.keep_info cmp v = u) := by
  cases hf : u.find_info cmp v.tolvar_locator_t with
  | none =>
    have hu : u.keep_info cmp v = u := by
      simp only [lvar_uservec_t.keep_info, hf]
    have hnone := (find_info_from_none cmp v.tolvar_locator_t u.lvvec 0).1 hf
    rw [hu]
    refine ⟨rfl, rfl, rfl, rfl, rfl, ?_, fun _ => rfl⟩
    rintro ⟨e, he, hc⟩
    exact (hnone e he hc).elim
  | some p =>
    have hu : u.keep_info cmp v
        = { u with lvvec := update_at lvar_saved_info_t.set_keep u.lvvec p } := by
      simp only [lvar_uservec_t.keep_info, hf]
    obtain ⟨n, hp, ⟨e, he, hc⟩, hlt⟩ :=
      find_info_from_spec cmp v.tolvar_locator_t u.lvvec 0 p hf
    have hpn : p = n := by omega
    subst hpn
    rw [hu]
    refine ⟨rfl, rfl, rfl, rfl, update_at_length _ _ _, ?_, ?_⟩
    · intro _
      refine ⟨p, e, he, hc, hlt, ?_, or_sets e.flags LVINF_KEEP LVINF_KEEP (by decide),
        rfl, rfl, rfl, rfl, ?_⟩
      · show (update_at lvar_saved_info_t.set_keep u.lvvec p)[p]? = _
        rw [update_at_same, he]; rfl
      · intro j hj
        exact update_at_other _ _ _ _ hj
    · intro hall
      have hmem : e ∈ u.lvvec := List.mem_iff_getElem?.2 ⟨p, he⟩
      exact (hall e hmem hc).elim

/-- Witness for C6: in the example table the entry at stack offset 16 matches
the example variable, so an entry is marked as kept. -/
theorem keep_info_frame_witness :
    ∃ (p : Nat) (e : lvar_saved_info_t), uservec_example.lvvec[p]? = some e ∧
      (uservec_example.keep_info locator_cmp_example lvar_example).lvvec[p]?
        = some e.set_keep ∧ e.set_keep.is_kept = true :=
  let ⟨p, e, h1, _, _, h4, h5, _⟩ :=
    (keep_info_frame locator_cmp_example uservec_example lvar_example).2.2.2.2.2.1
      ⟨{ ll := { location := .stkoff 16, defea := 0x1010 }, cmt := "buffer" },
        by decide, by decide⟩
  ⟨p, e, h1, h4, h5⟩

/-! ### Cleanup -/

theorem non_null_cons_null (ps : List ptr_t) : non_null (NULL :: ps) = non_null ps := by
  simp [non_null]

theorem non_null_cons (p : ptr_t) (ps : List ptr_t) (hp : p ≠ NULL) :
    non_null (p :: ps) = p :: non_null ps := by
  simp [non_null, hp]

theorem mem_non_null (q : ptr_t) (ps : List ptr_t) :
    q ∈ non_null ps ↔ q ∈ ps ∧ q ≠ NULL := by
  simp [non_null]

theorem delete_all_releasable (ps : List ptr_t) (h : heap_t) (hr : releasable h ps) :
    delete_all h ps = some (h.filter (fun q => decide (q ∉ non_null ps))) := by
  induction ps generalizing h with
  | nil => simp [delete_all, non_null]
  | cons p ps ih =>
    obtain ⟨hlive, hnd⟩ := hr
    by_cases hp : p = NULL
    · subst hp
      have hr2 : releasable h ps :=
        ⟨fun q hq => hlive q (List.mem_cons_of_mem _ hq), by simpa [non_null_cons_null] using hnd⟩
      simp only [delete_all, delete, if_true, Option.some_bind, ih h hr2, non_null_cons_null]
    · have hmem : p ∈ h := (hlive p (List.mem_cons_self _ _)).resolve_left hp
      rw [non_null_cons p ps hp, List.nodup_cons] at hnd
      have hr2 : releasable (h.filter (fun q => decide (q ≠ p))) ps := by
        refine ⟨?_, hnd.2⟩
        intro q hq
        by_cases hq0 : q = NULL
        · exact Or.inl hq0
        · right
          have hqh : q ∈ h := (hlive q (List.mem_cons_of_mem _ hq)).resolve_left hq0
          have hqp : q ≠ p := by
            intro hqp
            exact hnd.1 (by rw [← hqp]; exact (mem_non_null q ps).2 ⟨hq, hq0⟩)
          simp [hqh, hqp]
      simp only [delete_all, delete, hp, hmem, if_true, if_false, Option.some_bind, ih _ hr2,
        non_null_cons p ps hp, List.filter_filter]
      congr 1
      apply List.filter_congr
      intro q _
      by_cases hqp : q = p <;> simp [hqp]

theorem delete_not_live (h h1 : heap_t) (p : ptr_t) (hp : p ≠ NULL)
    (hd : delete h p = some h1) : p ∉ h1 ∧ ∀ q, q ∈ h1 → q ∈ h := by
  unfold delete at hd
  rw [if_neg hp] at hd
  by_cases hm : p ∈ h
  · rw [if_pos hm] at hd
    have := Option.some.inj hd
    subst this
    refine ⟨by simp, ?_⟩
    intro q hq
    exact (List.mem_filter.1 hq).1
  · rw [if_neg hm] at hd
    exact Option.noConfusion hd

theorem delete_null (h : heap_t) : delete h NULL = some h := by
  simp [delete]

theorem delete_dead (h : heap_t) (p : ptr_t) (hp : p ≠ NULL) (hm : p ∉ h) :
    delete h p = none := by
  simp [delete, hp, hm]

theorem cexpr_children_empty (e : cexpr_t) :
    ({ e with op := ctype_t.cot_empty } : cexpr_t).children = [] := rfl

theorem cinsn_children_empty (i : cinsn_t) :
    ({ i with op := ctype_t.cit_empty } : cinsn_t).children = [] := rfl

/-- C7 (as stated, refuted): for an if-statement whose then-branch is the live
object at address 1, the first `cif_t::cleanup` releases the branch and the
second one releases the same address again. -/
theorem cif_cleanup_twice_releases_again :
    cif_t.cleanup { ithen := 1 } [1] = some [] ∧
    (cif_t.cleanup { ithen := 1 } [1]).bind (cif_t.cleanup { ithen := 1 }) = none ∧
    cloop_t.cleanup { body := 1 } [1] = some [] ∧
    (cloop_t.cleanup { body := 1 } [1]).bind (cloop_t.cleanup { body := 1 }) = none := by
  decide

/-- C7 (amended): the node-level cleanups are idempotent and the payload
cleanups are single-use.  When the owned children of an expression or a
statement can be released, `cleanup()` succeeds, releases exactly them and
sets the empty kind; a node that went through `cleanup()` owns nothing, and a
second `cleanup()` succeeds, releases nothing and leaves node and free store as
they are.  `cif_t::cleanup` and `cloop_t::cleanup` release their branches when
these can be released, leaving the pointers as they were: applying them again
succeeds only if all the branch pointers are `NULL`, and otherwise releases an
address that is no longer live. -/
theorem cleanup_idempotent_on_nodes :
    (∀ (e : cexpr_t) (h : heap_t), releasable h e.children →
      e.cleanup h = some ({ e with op := ctype_t.cot_empty },
        h.filter (fun q => decide (q ∉ non_null e.children)))) ∧
    (∀ (e e1 : cexpr_t) (h h1 : heap_t), e.cleanup h = some (e1, h1) →
      e1.op = ctype_t.cot_empty ∧ e1.children = [] ∧ e1.cleanup h1 = some (e1, h1)) ∧
    (∀ (i : cinsn_t) (h : heap_t), releasable h i.children →
      i.cleanup h = some ({ i with op := ctype_t.cit_empty },
        h.filter (fun q => decide (q ∉ non_null i.children)))) ∧
    (∀ (i i1 : cinsn_t) (h h1 : heap_t), i.cleanup h = some (i1, h1) →
      i1.op = ctype_t.cit_empty ∧ i1.children = [] ∧ i1.cleanup h1 = some (i1, h1)) ∧
    (∀ (c : cif_t) (h : heap_t), releasable h [c.ithen, c.ielse] →
      c.cleanup h = some (h.filter (fun q => decide (q ∉ non_null [c.ithen, c.ielse])))) ∧
    (∀ (c : cif_t) (h h1 : heap_t), c.cleanup h = some h1 →
      (c.ithen ≠ NULL ∨ c.ielse ≠ NULL) → c.cleanup h1 = none) ∧
    (∀ (c : cif_t) (h : heap_t), c.ithen = NULL → c.ielse = NULL → c.cleanup h = some h) ∧
    (∀ (l : cloop_t) (h : heap_t), releasable h [l.body] →
      l.cleanup h = some (h.filter (fun q => decide (q ∉ non_null [l.body])))) ∧
    (∀ (l : cloop_t) (h h1 : heap_t), l.cleanup h = some h1 →
      l.body ≠ NULL → l.cleanup h1 = none) ∧
    (∀ (l : cloop_t) (h : heap_t), l.body = NULL → l.cleanup h = some h) := by
  refine ⟨?_, ?_, ?_, ?_, ?_, ?_, ?_, ?_, ?_, ?_⟩
  · intro e h hr
    simp only [cexpr_t.cleanup, delete_all_releasable _ _ hr, Option.map_some']
  · intro e e1 h h1 hc
    simp only [cexpr_t.cleanup, Option.map_eq_some'] at hc
    obtain ⟨h2, _, heq⟩ := hc
    have he1 : e1 = { e with op := ctype_t.cot_empty } := (congrArg Prod.fst heq).symm
    subst he1
    exact ⟨rfl, rfl, rfl⟩
  · intro i h hr
    simp only [cinsn_t.cleanup, delete_all_releasable _ _ hr, Option.map_some']
  · intro i i1 h h1 hc
    simp only [cinsn_t.cleanup, Option.map_eq_some'] at hc
    obtain ⟨h2, _, heq⟩ := hc
    have hi1 : i1 = { i with op := ctype_t.cit_empty } := (congrArg Prod.fst heq).symm
    subst hi1
    exact ⟨rfl, rfl, rfl⟩
  · intro c h hr
    have := delete_all_releasable _ _ hr
    simp only [delete_all, Option.bind_eq_bind] at this
    rw [← this]
    unfold cif_t.cleanup
    cases delete h c.ithen with
    | none => rfl
    | some h1 =>
      simp only [Option.some_bind]
      cases delete h1 c.ielse <;> rfl
  · intro c h h1 hc hor
    unfold cif_t.cleanup at hc ⊢
    cases hd : delete h c.ithen with
    | none => rw [hd] at hc; exact Option.noConfusion hc
    | some h2 =>
      rw [hd] at hc
      simp only [Option.some_bind] at hc
      by_cases ht : c.ithen = NULL
      · have he : c.ielse ≠ NULL := hor.resolve_left (fun hh => hh ht)
        have hdead := (delete_not_live h2 h1 c.ielse he hc).1
        rw [ht, delete_null, Option.some_bind]
        exact delete_dead h1 c.ielse he hdead
      · have h2dead := delete_not_live h h2 c.ithen ht hd
        have hdead : c.ithen ∉ h1 := by
          intro hin
          by_cases he : c.ielse = NULL
          · rw [he, delete_null] at hc
            have := Option.some.inj hc
            subst this
            exact h2dead.1 hin
          · exact h2dead.1 ((delete_not_live h2 h1 c.ielse he hc).2 _ hin)
        rw [delete_dead h1 c.ithen ht hdead]
        rfl
  · intro c h ht he
    unfold cif_t.cleanup
    rw [ht, he, delete_null, Option.some_bind, delete_null]
  · intro l h hr
    have := delete_all_releasable _ _ hr
    simp only [delete_all, Option.bind_eq_bind] at this
    rw [← this]
    unfold cloop_t.cleanup
    cases delete h l.body <;> rfl
  · intro l h h1 hc hb
    unfold cloop_t.cleanup at hc ⊢
    exact delete_dead h1 l.body hb (delete_not_live h h1 l.body hb hc).1
  · intro l h hb
    unfold cloop_t.cleanup
    rw [hb, delete_null]

/-- Witness for C7: an assignment node owning the live operands at addresses 1
and 2 is cleaned up once, which releases both and keeps address 3, and then
once more. -/
theorem cleanup_idempotent_on_nodes_witness :
    cexpr_t.cleanup { op := ctype_t.cot_asg, x := 1, y := 2 } [1, 2, 3]
      = some ({ op := ctype_t.cot_empty, x := 1, y := 2 }, [3]) ∧
    cexpr_t.cleanup { op := ctype_t.cot_empty, x := 1, y := 2 } [3]
      = some ({ op := ctype_t.cot_empty, x := 1, y := 2 }, [3]) :=
  ⟨cleanup_idempotent_on_nodes.1 { op := ctype_t.cot_asg, x := 1, y := 2 } [1, 2, 3]
      ⟨by decide, by decide⟩,
   (cleanup_idempotent_on_nodes.2.1 { op := ctype_t.cot_asg, x := 1, y := 2 }
      { op := ctype_t.cot_empty, x := 1, y := 2 } [1, 2, 3] [3] (by decide)).2.2⟩

/-! ### Overlap of variable locations -/

theorem ranges_intersect_comm (a b : argpart_t) :
    ranges_intersect a b = ranges_intersect b a := by
  unfold ranges_intersect
  rw [max_comm a.start b.start, min_comm (a.start + a.size) (b.start + b.size)]
  congr 1
  exact decide_eq_decide.2 eq_comm

theorem any_any_comm {α : Type} (f : α → α → Bool) (hf : ∀ a b, f a b = f b a)
    (l1 l2 : List α) :
    l1.any (fun a => l2.any (fun b => f a b)) = l2.any (fun b => l1.any (fun a => f b a)) := by
  rw [Bool.eq_iff_iff]
  simp only [List.any_eq_true]
  constructor
  · rintro ⟨a, ha, b, hb, hab⟩
    exact ⟨b, hb, a, ha, by rw [← hf]; exact hab⟩
  · rintro ⟨b, hb, a, ha, hba⟩
    exact ⟨a, ha, b, hb, by rw [hf]; exact hba⟩

/-- C8: the overlap test is symmetric in its two (location, width) arguments,
hence so are `has_common` and `has_common_bit` between two variables. -/
theorem arglocs_overlap_symmetric :
    (∀ (l1 : vdloc_t) (w1 : Nat) (l2 : vdloc_t) (w2 : Nat),
      arglocs_overlap l1 w1 l2 w2 = arglocs_overlap l2 w2 l1 w1) ∧
    (∀ a b : lvar_t, a.has_common b = b.has_common a) ∧
    (∀ a b : lvar_t, a.has_common_bit b.location (to_size_t b.width)
      = b.has_common_bit a.location (to_size_t a.width)) := by
  have key : ∀ (l1 : vdloc_t) (w1 : Nat) (l2 : vdloc_t) (w2 : Nat),
      arglocs_overlap l1 w1 l2 w2 = arglocs_overlap l2 w2 l1 w1 := by
    intro l1 w1 l2 w2
    unfold arglocs_overlap
    exact any_any_comm ranges_intersect ranges_intersect_comm _ _
  exact ⟨key, fun a b => key _ _ _ _, fun a b => key _ _ _ _⟩

/-! ### Ctree traversal -/

theorem call_visit_recording (v : ctree_visitor_t (List hook_record)) (item : ctree_t) :
    call_visit recording_hooks v item =
      (0, { v with user := v.user ++
        [⟨visit_hook item.op, item.ea, item.op, v.parents.map ctree_t.ea⟩] }) := by
  unfold call_visit visit_hook recording_hooks note_call
  cases is_expr item.op <;> rfl

theorem call_leave_recording (v : ctree_visitor_t (List hook_record)) (item : ctree_t) :
    call_leave recording_hooks v item =
      (0, { v with user := v.user ++
        [⟨leave_hook item.op, item.ea, item.op, v.parents.map ctree_t.ea⟩] }) := by
  unfold call_leave leave_hook recording_hooks note_call
  cases is_expr item.op <;> rfl

mutual

theorem apply_to_at_recording (t : ctree_t) (f : Nat) (ps : List ctree_t)
    (u : List hook_record) (hp : (f &&& CV_PRUNE) = 0) (hi : (f &&& CV_INSNS) = 0) :
    apply_to_at recording_hooks t ⟨f, ps, u⟩ =
      ⟨0, ⟨f, ps, u ++ complete_walk ((f &&& CV_POST) != 0) ((f &&& CV_PARENTS) != 0)
        (ps.map ctree_t.ea) t⟩⟩ := by
  match t with
  | .node ea op kids =>
    have hk := apply_to_kids_recording kids f
    unfold apply_to_at
    simp only [call_visit_recording, ctree_visitor_t.only_insns, ctree_visitor_t.must_prune,
      hi, hp, bne_self_eq_false, Bool.false_and, Bool.false_eq_true, if_false, ne_eq,
      not_true_eq_false, ctree_t.ea, ctree_t.op]
    unfold push_parent
    simp only [ctree_visitor_t.maintain_parents]
    cases hm : ((f &&& CV_PARENTS) != 0)
    · simp only [Bool.false_eq_true, if_false]
      rw [hk _ _ hp hi]
      unfold pop_parent after_children
      simp only [ctree_visitor_t.maintain_parents, hm, Bool.false_eq_true, if_false, ne_eq,
        not_true_eq_false, ctree_visitor_t.is_postorder, call_leave_recording, ctree_t.ea,
        ctree_t.op]
      cases hpo : ((f &&& CV_POST) != 0)
      · simp [complete_walk, hm, hpo]
      · simp [complete_walk, hm, hpo]
    · simp only [if_true]
      rw [hk _ _ hp hi]
      unfold pop_parent after_children
      simp only [ctree_visitor_t.maintain_parents, hm, if_true, ne_eq,
        not_true_eq_false, if_false, ctree_visitor_t.is_postorder, call_leave_recording,
        ctree_t.ea, ctree_t.op, List.dropLast_concat]
      cases hpo : ((f &&& CV_POST) != 0)
      · simp [complete_walk, hm, hpo, ctree_t.ea]
      · simp [complete_walk, hm, hpo, ctree_t.ea]

theorem apply_to_kids_recording (ts : List ctree_t) (f : Nat) (ps : List ctree_t)
    (u : List hook_record) (hp : (f &&& CV_PRUNE) = 0) (hi : (f &&& CV_INSNS) = 0) :
    apply_to_kids recording_hooks ts ⟨f, ps, u⟩ =
      ⟨0, ⟨f, ps, u ++ complete_walk_kids ((f &&& CV_POST) != 0) ((f &&& CV_PARENTS) != 0)
        (ps.map ctree_t.ea) ts⟩⟩ := by
  match ts with
  | [] => simp [apply_to_kids, complete_walk_kids]
  | t :: ts =>
    unfold apply_to_kids
    rw [apply_to_at_recording t f ps u hp hi]
    simp only [ne_eq, not_true_eq_false, if_false]
    rw [apply_to_kids_recording ts f ps _ hp hi]
    simp [complete_walk_kids]

end

theorem split_append {α : Type} (A B l1 : List α) (r : α) (l3 : List α)
    (h : A ++ B = l1 ++ r :: l3) :
    (∃ c, A = l1 ++ r :: c ∧ l3 = c ++ B) ∨ (∃ a2, l1 = A ++ a2 ∧ B = a2 ++ r :: l3) := by
  rcases List.append_eq_append_iff.1 h with ⟨a2, h1, h2⟩ | ⟨c, h1, h2⟩
  · exact Or.inr ⟨a2, h1, h2⟩
  · cases c with
    | nil =>
      refine Or.inr ⟨[], ?_, ?_⟩
      · simpa using h1.symm
      · simpa using h2.symm
    | cons x c =>
      simp only [List.cons_append, List.cons.injEq] at h2
      obtain ⟨hx, h3⟩ := h2
      subst hx
      exact Or.inl ⟨c, h1, h3⟩

theorem chain_too_short (ctx pre : List ea_t) (a : ea_t) (suf : List ea_t)
    (h : ctx = ctx ++ pre ++ a :: suf) : False := by
  have := congrArg List.length h
  simp at this

mutual

theorem complete_walk_below (post : Bool) (ctx : List ea_t) (t : ctree_t) :
    ∀ r ∈ complete_walk post true ctx t, ctx <+: r.parents := by
  match t with
  | .node ea op kids =>
    intro r hr
    unfold complete_walk at hr
    simp only [if_true, List.mem_cons, List.mem_append] at hr
    rcases hr with h | h | h
    · subst h
      exact List.prefix_refl _
    · exact (List.prefix_append ctx [ea]).trans (complete_walk_kids_below post _ kids r h)
    · cases post with
      | false => simp at h
      | true =>
        simp only [if_true, List.mem_singleton] at h
        subst h
        exact List.prefix_refl _

theorem complete_walk_kids_below (post : Bool) (ctx : List ea_t) (ts : List ctree_t) :
    ∀ r ∈ complete_walk_kids post true ctx ts, ctx <+: r.parents := by
  match ts with
  | [] =>
    intro r hr
    simp [complete_walk_kids] at hr
  | t :: ts =>
    intro r hr
    unfold complete_walk_kids at hr
    rcases List.mem_append.1 hr with h | h
    · exact complete_walk_below post ctx t r h
    · exact complete_walk_kids_below post ctx ts r h

end

mutual

theorem complete_walk_visits (post : Bool) (ctx : List ea_t) (t : ctree_t) :
    visits_come_first ctx (complete_walk post true ctx t) := by
  match t with
  | .node ea op kids =>
    intro l1 r l3 pre a suf hL hr
    have ih := complete_walk_kids_visits post (ctx ++ [ea]) kids
    have hb := complete_walk_kids_below post (ctx ++ [ea]) kids
    unfold complete_walk at hL
    simp only [if_true] at hL
    rcases split_append [_] _ l1 r l3 hL with ⟨c, h1, _⟩ | ⟨a2, h1, h2⟩
    · cases l1 with
      | nil =>
        simp only [List.nil_append, List.cons.injEq] at h1
        rw [← h1.1] at hr
        exact (chain_too_short ctx pre a suf hr).elim
      | cons x l1 =>
        have := congrArg List.length h1
        simp at this
    · rcases split_append _ _ a2 r l3 h2 with ⟨c, h3, _⟩ | ⟨a3, _, h4⟩
      · have hrK : r ∈ complete_walk_kids post true (ctx ++ [ea]) kids := by
          rw [h3]
          simp
        obtain ⟨rest, hrest⟩ := hb r hrK
        rw [hr] at hrest
        cases pre with
        | nil =>
          simp only [List.append_nil, List.append_assoc, List.append_cancel_left_eq,
            List.singleton_append, List.cons.injEq] at hrest
          obtain ⟨hea, _⟩ := hrest
          subst hea
          refine ⟨[], op, a2, ?_, ?_⟩
          · simpa using h1
          · intro r2 hr2
            simp only [List.append_nil]
            apply hb
            rw [h3]
            simp [hr2]
        | cons p pre =>
          simp only [List.append_assoc, List.append_cancel_left_eq,
            List.singleton_append, List.cons_append, List.cons.injEq] at hrest
          obtain ⟨hea, _⟩ := hrest
          subst hea
          obtain ⟨m1, op2, m2, hm, hbel⟩ := ih a2 r c pre a suf h3 (by simp [hr])
          refine ⟨⟨visit_hook op, ea, op, ctx⟩ :: m1, op2, m2, ?_, ?_⟩
          · rw [h1, hm]
            simp
          · intro r2 hr2
            simpa using hbel r2 hr2
      · cases post with
        | false => simp at h4
        | true =>
          simp only [if_true] at h4
          cases a3 with
          | nil =>
            simp only [List.nil_append, List.cons.injEq] at h4
            rw [← h4.1] at hr
            exact (chain_too_short ctx pre a suf hr).elim
          | cons x a3 =>
            have := congrArg List.length h4
            simp at this

theorem complete_walk_kids_visits (post : Bool) (ctx : List ea_t) (ts : List ctree_t) :
    visits_come_first ctx (complete_walk_kids post true ctx ts) := by
  match ts with
  | [] =>
    intro l1 r l3 pre a suf hL hr
    simp [complete_walk_kids] at hL
  | t :: ts =>
    intro l1 r l3 pre a suf hL hr
    unfold complete_walk_kids at hL
    rcases split_append _ _ l1 r l3 hL with ⟨c, h1, _⟩ | ⟨a2, h1, h2⟩
    · exact complete_walk_visits post ctx t l1 r c pre a suf h1 hr
    · obtain ⟨m1, op2, m2, hm, hbel⟩ :=
        complete_walk_kids_visits post ctx ts a2 r l3 pre a suf h2 hr
      refine ⟨complete_walk post true ctx t ++ m1, op2, m2, ?_, hbel⟩
      rw [h1, hm]
      simp

end

mutual

theorem complete_walk_leaves (ctx : List ea_t) (t : ctree_t) :
    leaves_come_last ctx (complete_walk true true ctx t) := by
  match t with
  | .node ea op kids =>
    intro l1 r l3 pre a suf hL hr
    have ih := complete_walk_kids_leaves (ctx ++ [ea]) kids
    have hb := complete_walk_kids_below true (ctx ++ [ea]) kids
    unfold complete_walk at hL
    simp only [if_true] at hL
    rcases split_append [_] _ l1 r l3 hL with ⟨c, h1, _⟩ | ⟨a2, h1, h2⟩
    · cases l1 with
      | nil =>
        simp only [List.nil_append, List.cons.injEq] at h1
        rw [← h1.1] at hr
        exact (chain_too_short ctx pre a suf hr).elim
      | cons x l1 =>
        have := congrArg List.length h1
        simp at this
    · rcases split_append _ _ a2 r l3 h2 with ⟨c, h3, h5⟩ | ⟨a3, _, h4⟩
      · have hrK : r ∈ complete_walk_kids true true (ctx ++ [ea]) kids := by
          rw [h3]
          simp
        obtain ⟨rest, hrest⟩ := hb r hrK
        rw [hr] at hrest
        cases pre with
        | nil =>
          simp only [List.append_nil, List.append_assoc, List.append_cancel_left_eq,
            List.singleton_append, List.cons.injEq] at hrest
          obtain ⟨hea, _⟩ := hrest
          subst hea
          refine ⟨c, op, [], ?_, ?_⟩
          · simpa using h5
          · intro r2 hr2
            simp only [List.append_nil]
            apply hb
            rw [h3]
            simp [hr2]
        | cons p pre =>
          simp only [List.append_assoc, List.append_cancel_left_eq,
            List.singleton_append, List.cons_append, List.cons.injEq] at hrest
          obtain ⟨hea, _⟩ := hrest
          subst hea
          obtain ⟨m2, op2, m3, hm, hbel⟩ := ih a2 r c pre a suf h3 (by simp [hr])
          refine ⟨m2, op2, m3 ++ [⟨leave_hook op, ea, op, ctx⟩], ?_, ?_⟩
          · rw [h5, hm]
            simp
          · intro r2 hr2
            simpa using hbel r2 hr2
      · cases a3 with
        | nil =>
          simp only [List.nil_append, List.cons.injEq] at h4
          rw [← h4.1] at hr
          exact (chain_too_short ctx pre a suf hr).elim
        | cons x a3 =>
          have := congrArg List.length h4
          simp at this

theorem complete_walk_kids_leaves (ctx : List ea_t) (ts : List ctree_t) :
    leaves_come_last ctx (complete_walk_kids true true ctx ts) := by
  match ts with
  | [] =>
    intro l1 r l3 pre a suf hL hr
    simp [complete_walk_kids] at hL
  | t :: ts =>
    intro l1 r l3 pre a suf hL hr
    unfold complete_walk_kids at hL
    rcases split_append _ _ l1 r l3 hL with ⟨c, h1, h5⟩ | ⟨a2, _, h2⟩
    · obtain ⟨m2, op2, m3, hm, hbel⟩ := complete_walk_leaves ctx t l1 r c pre a suf h1 hr
      refine ⟨m2, op2, m3 ++ complete_walk_kids true true ctx ts, ?_, hbel⟩
      rw [h5, hm]
      simp
    · exact complete_walk_kids_leaves ctx ts a2 r l3 pre a suf h2 hr

end

namespace std_map

variable {K V : Type} {lt : K → K → Bool}

theorem lt_asymm (h : strict_order lt) (a b : K) (hab : lt a b = true) : lt b a = false := by
  cases hba : lt b a
  · rfl
  · have := h.trans a b a hab hba
    rw [h.irrefl] at this
    exact Bool.noConfusion this

theorem assign_append (h : strict_order lt) (k : K) (v : V) (m : std_map K V)
    (hm : ∀ e ∈ m, lt e.1 k = true) : assign lt k v m = m ++ [(k, v)] := by
  induction m with
  | nil => rfl
  | cons d rest ih =>
    obtain ⟨k0, v0⟩ := d
    have h0 : lt k0 k = true := hm (k0, v0) (List.mem_cons_self _ _)
    have h1 : lt k k0 = false := lt_asymm h k0 k h0
    rw [assign]
    simp only [h1, h0, Bool.false_eq_true, if_false, if_true, List.cons_append]
    rw [ih (fun e he => hm e (List.mem_cons_of_mem _ he))]

theorem foldl_assign_ordered (h : strict_order lt) (rest acc : std_map K V)
    (ho : ordered lt (acc ++ rest)) :
    rest.foldl (fun m kv => assign lt kv.1 kv.2 m) acc = acc ++ rest := by
  induction rest generalizing acc with
  | nil => simp
  | cons e rest ih =>
    have hpw := ho
    unfold ordered at hpw
    rw [List.pairwise_append] at hpw
    have hlt : ∀ d ∈ acc, lt d.1 e.1 = true :=
      fun d hd => hpw.2.2 d hd e (List.mem_cons_self _ _)
    rw [List.foldl_cons, assign_append h e.1 e.2 acc hlt, ih]
    · simp
    · simpa using ho

theorem build_of_ordered (h : strict_order lt) (t : std_map K V) (ho : ordered lt t) :
    build lt t = t := by
  unfold build
  simpa using foldl_assign_ordered h t [] (by simpa using ho)

theorem find_none_of_lt (_h : strict_order lt) (k : K) (m : std_map K V)
    (hm : ∀ e ∈ m, lt k e.1 = true) : find lt k m = none := by
  induction m with
  | nil => rfl
  | cons d rest ih =>
    obtain ⟨k0, v0⟩ := d
    have h0 : lt k k0 = true := hm (k0, v0) (List.mem_cons_self _ _)
    rw [find]
    simp only [h0, Bool.not_true, Bool.and_false, Bool.false_eq_true, if_false]
    exact ih (fun e he => hm e (List.mem_cons_of_mem _ he))

theorem find_cons_self (h : strict_order lt) (k : K) (v : V) (m : std_map K V) :
    find lt k ((k, v) :: m) = some v := by
  simp [find, h.irrefl]

theorem find_cons_other (h : strict_order lt) (k q : K) (v : V) (m : std_map K V)
    (hne : q ≠ k) : find lt q ((k, v) :: m) = find lt q m := by
  rw [find]
  cases h1 : lt k q <;> cases h2 : lt q k <;> simp
  exact (hne (h.total q k h2 h1)).elim

theorem ordered_ext (h : strict_order lt) (m1 m2 : std_map K V) (h1 : ordered lt m1)
    (h2 : ordered lt m2) (hf : ∀ k, find lt k m1 = find lt k m2) : m1 = m2 := by
  induction m1 generalizing m2 with
  | nil =>
    cases m2 with
    | nil => rfl
    | cons d r2 =>
      have := hf d.1
      rw [find_cons_self h] at this
      exact Option.noConfusion this
  | cons d1 r1 ih =>
    obtain ⟨k1, v1⟩ := d1
    cases m2 with
    | nil =>
      have := hf k1
      rw [find_cons_self h] at this
      exact Option.noConfusion this
    | cons d2 r2 =>
      obtain ⟨k2, v2⟩ := d2
      have o1 := h1
      have o2 := h2
      unfold ordered at o1 o2
      rw [List.pairwise_cons] at o1 o2
      have hk : k1 = k2 := by
        apply h.total
        · cases hlt : lt k1 k2
          · rfl
          · have hnone : find lt k1 ((k2, v2) :: r2) = none := by
              apply find_none_of_lt h
              intro e he
              rcases List.mem_cons.1 he with he | he
              · rw [he]; exact hlt
              · exact h.trans _ _ _ hlt (o2.1 e he)
            have := hf k1
            rw [find_cons_self h, hnone] at this
            exact Option.noConfusion this
        · cases hlt : lt k2 k1
          · rfl
          · have hnone : find lt k2 ((k1, v1) :: r1) = none := by
              apply find_none_of_lt h
              intro e he
              rcases List.mem_cons.1 he with he | he
              · rw [he]; exact hlt
              · exact h.trans _ _ _ hlt (o1.1 e he)
            have := hf k2
            rw [find_cons_self h, hnone] at this
            exact Option.noConfusion this
      subst hk
      have hv : v1 = v2 := by
        have := hf k1
        rw [find_cons_self h, find_cons_self h] at this
        exact Option.some.inj this
      subst hv
      have hr : r1 = r2 := by
        apply ih r2 o1.2 o2.2
        intro k
        by_cases hkk : k = k1
        · subst hkk
          rw [find_none_of_lt h k r1 o1.1, find_none_of_lt h k r2 o2.1]
        · have := hf k
          rw [find_cons_other h k1 k v1 r1 hkk, find_cons_other h k1 k v1 r2 hkk] at this
          exact this
      rw [hr]

theorem assign_comm (h : strict_order lt) (k1 k2 : K) (v1 v2 : V) (m : std_map K V)
    (hm : ordered lt m) (hne : k1 ≠ k2) :
    assign lt k2 v2 (assign lt k1 v1 m) = assign lt k1 v1 (assign lt k2 v2 m) := by
  apply ordered_ext h
  · exact assign_ordered h _ _ _ (assign_ordered h _ _ _ hm)
  · exact assign_ordered h _ _ _ (assign_ordered h _ _ _ hm)
  · intro k
    by_cases hk2 : k = k2
    · subst hk2
      rw [find_assign_self h, find_assign_other h k1 k v1 _ (Ne.symm hne), find_assign_self h]
    · by_cases hk1 : k = k1
      · subst hk1
        rw [find_assign_other h k2 k v2 _ hk2, find_assign_self h, find_assign_self h]
      · rw [find_assign_other h k2 k v2 _ hk2, find_assign_other h k1 k v1 _ hk1,
          find_assign_other h k1 k v1 _ hk1, find_assign_other h k2 k v2 _ hk2]

theorem foldl_assign_perm (h : strict_order lt) (ops1 ops2 : List (K × V))
    (hp : ops1.Perm ops2) (hnd : (ops1.map Prod.fst).Nodup) :
    ∀ acc : std_map K V, ordered lt acc →
      ops1.foldl (fun m kv => assign lt kv.1 kv.2 m) acc
        = ops2.foldl (fun m kv => assign lt kv.1 kv.2 m) acc := by
  induction hp with
  | nil => intro acc _; rfl
  | cons x _ ih =>
    intro acc hacc
    rw [List.map_cons, List.nodup_cons] at hnd
    simp only [List.foldl_cons]
    exact ih hnd.2 _ (assign_ordered h _ _ _ hacc)
  | swap x y l =>
    intro acc hacc
    simp only [List.map_cons, List.nodup_cons, List.mem_cons, not_or] at hnd
    simp only [List.foldl_cons]
    rw [assign_comm h y.1 x.1 y.2 x.2 acc hacc hnd.1.1]
  | trans hp1 _ ih1 ih2 =>
    intro acc hacc
    rw [ih1 hnd acc hacc]
    exact ih2 ((hp1.map Prod.fst).nodup_iff.1 hnd) acc hacc

theorem build_perm (h : strict_order lt) (ops1 ops2 : List (K × V))
    (hp : ops1.Perm ops2) (hnd : (ops1.map Prod.fst).Nodup) :
    build lt ops1 = build lt ops2 :=
  foldl_assign_perm h ops1 ops2 hp hnd [] List.Pairwise.nil

end std_map

theorem ctype_val_injective (a b : ctype_t) (h : a.val = b.val) : a = b := by
  have hidx : ∀ c : ctype_t, c.val = c.toCtorIdx := fun c => by cases c <;> rfl
  rw [hidx, hidx] at h
  rw [← ctype_t.ofNat_toCtorIdx a, ← ctype_t.ofNat_toCtorIdx b, h]

theorem int_lt_strict_order : strict_order int_lt := by
  refine ⟨?_, ?_, ?_⟩
  · intro a; simp [int_lt]
  · intro a b c; simp only [int_lt, decide_eq_true_eq]; omega
  · intro a b; simp only [int_lt, decide_eq_false_iff_not]; omega

theorem ea_lt_strict_order : strict_order ea_lt := by
  refine ⟨?_, ?_, ?_⟩
  · intro a; simp [ea_lt]
  · intro a b c; simp only [ea_lt, decide_eq_true_eq]; unfold ea_t; omega
  · intro a b; simp only [ea_lt, decide_eq_false_iff_not]; unfold ea_t; omega

theorem operand_locator_lt_iff (a b : operand_locator_t) :
    operand_locator_t.lt a b = true ↔ (a.ea < b.ea ∨ (a.ea = b.ea ∧ a.opnum < b.opnum)) := by
  unfold operand_locator_t.lt operand_locator_t.compare
  simp only [decide_eq_true_eq]
  unfold ea_t at *
  split_ifs <;> omega

theorem operand_locator_lt_strict_order : strict_order operand_locator_t.lt := by
  refine ⟨?_, ?_, ?_⟩
  · intro a
    rw [Bool.eq_false_iff, Ne, operand_locator_lt_iff]
    unfold ea_t at *
    omega
  · intro a b c hab hbc
    rw [operand_locator_lt_iff] at *
    unfold ea_t at *
    omega
  · intro a b hab hba
    rw [Bool.eq_false_iff, Ne, operand_locator_lt_iff] at hab hba
    obtain ⟨ae, ao⟩ := a
    obtain ⟨be, bo⟩ := b
    unfold ea_t at *
    simp only at hab hba
    have h1 : ae = be := by omega
    have h2 : ao = bo := by omega
    rw [h1, h2]

theorem citem_locator_lt_iff (a b : citem_locator_t) :
    citem_locator_t.lt a b = true ↔ (a.ea < b.ea ∨ (a.ea = b.ea ∧ a.op.val < b.op.val)) := by
  unfold citem_locator_t.lt citem_locator_t.compare
  simp only [decide_eq_true_eq]
  unfold ea_t at *
  split_ifs <;> omega

theorem citem_locator_lt_strict_order : strict_order citem_locator_t.lt := by
  refine ⟨?_, ?_, ?_⟩
  · intro a
    rw [Bool.eq_false_iff, Ne, citem_locator_lt_iff]
    unfold ea_t at *
    omega
  · intro a b c hab hbc
    rw [citem_locator_lt_iff] at *
    unfold ea_t at *
    omega
  · intro a b hab hba
    rw [Bool.eq_false_iff, Ne, citem_locator_lt_iff] at hab hba
    obtain ⟨ae, ao⟩ := a
    obtain ⟨be, bo⟩ := b
    unfold ea_t at *
    simp only at hab hba
    have h1 : ae = be := by omega
    have h2 : ao = bo := ctype_val_injective ao bo (by omega)
    rw [h1, h2]

/-- C10: for each of the five annotation tables, restoring after saving under a
function address gives back the table that was saved, entry for entry,
whatever tree the function has been rebuilt with in between.  Every table made
by storing entries is in key order, and storing the same entries (with
different keys) in another order makes the same table, so the result does not
depend on insertion order. -/
theorem save_restore_roundtrip :
    (∀ (s : session_t) (ea : ea_t) (t : user_labels_t) (new_body : ctree_t),
      std_map.ordered int_lt t →
      restore_user_labels
        (({ s with db := save_user_labels s.db ea t } : session_t).rebuild new_body).db ea
        = some t) ∧
    (∀ (s : session_t) (ea : ea_t) (t : user_cmts_t) (new_body : ctree_t),
      std_map.ordered treeloc_t.lt t →
      restore_user_cmts
        (({ s with db := save_user_cmts s.db ea t } : session_t).rebuild new_body).db ea
        = some t) ∧
    (∀ (s : session_t) (ea : ea_t) (t : user_numforms_t) (new_body : ctree_t),
      std_map.ordered operand_locator_t.lt t →
      restore_user_numforms
        (({ s with db := save_user_numforms s.db ea t } : session_t).rebuild new_body).db ea
        = some t) ∧
    (∀ (s : session_t) (ea : ea_t) (t : user_iflags_t) (new_body : ctree_t),
      std_map.ordered citem_locator_t.lt t →
      restore_user_iflags
        (({ s with db := save_user_iflags s.db ea t } : session_t).rebuild new_body).db ea
        = some t) ∧
    (∀ (s : session_t) (ea : ea_t) (t : user_unions_t) (new_body : ctree_t),
      std_map.ordered ea_lt t →
      restore_user_unions
        (({ s with db := save_user_unions s.db ea t } : session_t).rebuild new_body).db ea
        = some t) ∧
    (strict_order int_lt ∧ strict_order treeloc_t.lt ∧ strict_order operand_locator_t.lt ∧
      strict_order citem_locator_t.lt ∧ strict_order ea_lt) ∧
    (∀ (K V : Type) (lt : K → K → Bool), strict_order lt →
      ∀ ops1 ops2 : List (K × V), ops1.Perm ops2 → (ops1.map Prod.fst).Nodup →
        std_map.ordered lt (std_map.build lt ops1) ∧
        std_map.build lt ops1 = std_map.build lt ops2) := by
  refine ⟨?_, ?_, ?_, ?_, ?_, ?_, ?_⟩
  · intro s ea t _ ho
    simp only [restore_user_labels, save_user_labels, session_t.rebuild,
      std_map.find_assign_self ea_lt_strict_order, Option.map_some',
      std_map.build_of_ordered int_lt_strict_order t ho]
  · intro s ea t _ ho
    simp only [restore_user_cmts, save_user_cmts, session_t.rebuild,
      std_map.find_assign_self ea_lt_strict_order, Option.map_some',
      std_map.build_of_ordered treeloc_lt_strict_order t ho]
  · intro s ea t _ ho
    simp only [restore_user_numforms, save_user_numforms, session_t.rebuild,
      std_map.find_assign_self ea_lt_strict_order, Option.map_some',
      std_map.build_of_ordered operand_locator_lt_strict_order t ho]
  · intro s ea t _ ho
    simp only [restore_user_iflags, save_user_iflags, session_t.rebuild,
      std_map.find_assign_self ea_lt_strict_order, Option.map_some',
      std_map.build_of_ordered citem_locator_lt_strict_order t ho]
  · intro s ea t _ ho
    simp only [restore_user_unions, save_user_unions, session_t.rebuild,
      std_map.find_assign_self ea_lt_strict_order, Option.map_some',
      std_map.build_of_ordered ea_lt_strict_order t ho]
  · exact ⟨int_lt_strict_order, treeloc_lt_strict_order, operand_locator_lt_strict_order,
      citem_locator_lt_strict_order, ea_lt_strict_order⟩
  · intro K V lt h ops1 ops2 hp hnd
    exact ⟨std_map.build_ordered h ops1, std_map.build_perm h ops1 ops2 hp hnd⟩

/-- Witness for C10: a comment table with an else-line and a closing-brace
comment at one address is saved for the function at 0x401000, the tree is
rebuilt, and the table is restored. -/
theorem save_restore_roundtrip_witness :
    restore_user_cmts
      (({ body := scenario_block,
          db := save_user_cmts {} 0x401000
            [(⟨0x401020, ITP_ELSE⟩, ⟨"else", false⟩),
             (⟨0x401020, ITP_BRACE2⟩, ⟨"then", false⟩)] } : session_t).rebuild
        (.node 0x10 .cit_block [])).db 0x401000
      = some [(⟨0x401020, ITP_ELSE⟩, ⟨"else", false⟩),
              (⟨0x401020, ITP_BRACE2⟩, ⟨"then", false⟩)] :=
  save_restore_roundtrip.2.1 ⟨scenario_block, {}⟩ 0x401000
    [(⟨0x401020, ITP_ELSE⟩, ⟨"else", false⟩), (⟨0x401020, ITP_BRACE2⟩, ⟨"then", false⟩)]
    (.node 0x10 .cit_block []) (by unfold std_map.ordered; decide)

/-! ### Comment precisers -/

/-- C12: `ITP_ARG1`..`ITP_ARG64` are the 64 consecutive values 1..64, no other
named preciser has a value in that range, the named precisers are pairwise
distinct, the inner ones are at most `ITP_INNER_LAST` and the outer ones
(`ITP_ASM`..`ITP_BLOCK2`) are above it. -/
theorem itp_arg_slots :
    ITP_ARG1 = 1 ∧ ITP_ARG64 = 64 ∧ ITP_ARG64 - ITP_ARG1 + 1 = 64 ∧
    (∀ n ∈ [ITP_EMPTY, ITP_BRACE1, ITP_ASM, ITP_ELSE, ITP_DO, ITP_SEMI, ITP_CURLY1,
        ITP_CURLY2, ITP_BRACE2, ITP_COLON, ITP_BLOCK1, ITP_BLOCK2, ITP_CASE, ITP_SIGN],
      ¬ (ITP_ARG1 ≤ n ∧ n ≤ ITP_ARG64)) ∧
    [ITP_EMPTY, ITP_ARG1, ITP_ARG64, ITP_BRACE1, ITP_ASM, ITP_ELSE, ITP_DO, ITP_SEMI,
      ITP_CURLY1, ITP_CURLY2, ITP_BRACE2, ITP_COLON, ITP_BLOCK1, ITP_BLOCK2, ITP_CASE,
      ITP_SIGN].Nodup ∧
    (∀ n ∈ [ITP_EMPTY, ITP_ARG1, ITP_ARG64, ITP_BRACE1], n ≤ ITP_INNER_LAST) ∧
    (∀ n : item_preciser_t, ITP_ARG1 ≤ n → n ≤ ITP_ARG64 → n ≤ ITP_INNER_LAST) ∧
    (∀ n ∈ [ITP_ASM, ITP_ELSE, ITP_DO, ITP_SEMI, ITP_CURLY1, ITP_CURLY2, ITP_BRACE2,
        ITP_COLON, ITP_BLOCK1, ITP_BLOCK2], ITP_INNER_LAST < n) ∧
    [ITP_EMPTY, ITP_ARG1, ITP_ARG64, ITP_BRACE1, ITP_ASM, ITP_ELSE, ITP_DO, ITP_SEMI,
      ITP_CURLY1, ITP_CURLY2, ITP_BRACE2, ITP_COLON, ITP_BLOCK1, ITP_BLOCK2]
      = [0, 1, 64, 65, 66, 67, 68, 69, 70, 71, 72, 73, 74, 75] := by
  refine ⟨by decide, by decide, by decide, by decide, by decide, by decide, ?_, by decide,
    by decide⟩
  intro n h1 h2
  have h64 : ITP_ARG64 = 64 := by decide
  have hl : ITP_INNER_LAST = 65 := by decide
  rw [h64] at h2
  rw [hl]
  unfold item_preciser_t at *
  omega

/-- Witness for C12: the preciser of the tenth call argument, value 10, lies
among the inner precisers. -/
theorem itp_arg_slots_witness : (10 : item_preciser_t) ≤ ITP_INNER_LAST :=
  itp_arg_slots.2.2.2.2.2.2.1 10 (by decide) (by decide)

/-! ### Operator predicates -/

/-- C14 (code at the failing input): `op_uses_x` is true for every kind from
`cot_comma` through `cot_memptr` and false for every other kind, the leaf
kinds and all statement kinds among them, and it is also false for
`cot_sizeof`, whose documented form is `sizeof(x)`. -/
theorem op_uses_x_misses_sizeof :
    op_uses_x ctype_t.cot_sizeof = false ∧
    (∀ op : ctype_t, op_uses_x op = true ↔
      (ctype_t.cot_comma.val ≤ op.val ∧ op.val ≤ ctype_t.cot_memptr.val)) ∧
    (∀ op ∈ [ctype_t.cot_empty, ctype_t.cot_num, ctype_t.cot_fnum, ctype_t.cot_str,
        ctype_t.cot_obj, ctype_t.cot_var, ctype_t.cot_insn, ctype_t.cot_helper,
        ctype_t.cot_type], op_uses_x op = false) ∧
    (∀ op : ctype_t, is_expr op = false → op_uses_x op = false) := by
  refine ⟨by decide, ?_, by decide, ?_⟩
  · intro op
    cases op <;> simp [op_uses_x, ctype_t.val]
  · intro op
    cases op <;> simp [op_uses_x, is_expr, ctype_t.val, ctype_t.cot_last]

/-- C15: below `cit_end`, `is_allowed_on_small_struni` holds exactly for the
statement kinds and for `cot_asg`, `cot_eq`, `cot_ne`, `cot_comma`,
`cot_tern`; it is false for `cit_end`; and whatever `accepts_udts` accepts
below `cit_end` is allowed on small structures and unions. -/
theorem is_allowed_on_small_struni_iff (op : ctype_t) :
    (op.val < ctype_t.cit_end.val →
      (is_allowed_on_small_struni op = true ↔
        ((ctype_t.cit_empty.val ≤ op.val ∧ op.val ≤ ctype_t.cit_asm.val) ∨
          op ∈ [ctype_t.cot_asg, ctype_t.cot_eq, ctype_t.cot_ne, ctype_t.cot_comma,
            ctype_t.cot_tern]))) ∧
    (is_expr op = true →
      op ∉ [ctype_t.cot_asg, ctype_t.cot_eq, ctype_t.cot_ne, ctype_t.cot_comma,
        ctype_t.cot_tern] → is_allowed_on_small_struni op = false) ∧
    is_allowed_on_small_struni ctype_t.cit_end = false ∧
    (op.val < ctype_t.cit_end.val → accepts_udts op = true →
      is_allowed_on_small_struni op = true) := by
  cases op <;> simp [is_allowed_on_small_struni, accepts_udts, is_expr, ctype_t.val,
    ctype_t.cot_last]

/-- Witness for C15: the return statement is below `cit_end`, is accepted by
`accepts_udts`, and is allowed on small structures and unions. -/
theorem is_allowed_on_small_struni_iff_witness :
    is_allowed_on_small_struni ctype_t.cit_return = true :=
  (is_allowed_on_small_struni_iff ctype_t.cit_return).2.2.2 (by decide) (by decide)

/-! ### Number formats -/

theorem lor_eq_zero_iff (x y : Nat) : x ||| y = 0 ↔ x = 0 ∧ y = 0 := by
  constructor
  · intro h
    constructor <;> apply Nat.eq_of_testBit_eq <;> intro i <;>
      have hi := congrArg (fun z => Nat.testBit z i) h <;>
      simp only [Nat.testBit_or, Nat.zero_testBit, Bool.or_eq_false_iff] at hi
    · rw [hi.1, Nat.zero_testBit]
    · rw [hi.2, Nat.zero_testBit]
  · rintro ⟨rfl, rfl⟩
    rfl

theorem set_then_clear (f a : Nat) (hf : f < 2 ^ 32) (ha : a < 2 ^ 32) (h : f &&& a = 0) :
    (f ||| a) &&& bit_not32 a = f := by
  have hM : bit_not32 a = (2 ^ 32 - 1) ^^^ a := rfl
  rw [hM]
  apply Nat.eq_of_testBit_eq
  intro i
  have hfa := congrArg (fun z => Nat.testBit z i) h
  simp only [Nat.testBit_and, Nat.zero_testBit] at hfa
  simp only [Nat.testBit_and, Nat.testBit_or, Nat.testBit_xor, Nat.testBit_two_pow_sub_one]
  by_cases hi : i < 32
  · simp only [hi, decide_True]
    cases hfi : f.testBit i <;> cases hai : a.testBit i <;> simp_all
  · have hpow : (2 : Nat) ^ 32 ≤ 2 ^ i := Nat.pow_le_pow_right (by decide) (by omega)
    have hfi : f.testBit i = false := Nat.testBit_lt_two_pow (lt_of_lt_of_le hf hpow)
    have hai : a.testBit i = false := Nat.testBit_lt_two_pow (lt_of_lt_of_le ha hpow)
    simp [hi, hfi, hai]

/-- C18 (as stated, refuted): with `NF_NEGATE` requested and only the other
operation's done bit `NF_BINVDONE` set, the negation is requested and not
done, yet `needs_to_be_inverted` is false; the same with `NF_BITNOT` requested
and only `NF_NEGDONE` set. -/
theorem needs_to_be_inverted_mixes_done_bits :
    number_format_t.has_prop { props := NF_NEGATE ||| NF_BINVDONE } NF_NEGATE = true ∧
    number_format_t.has_prop { props := NF_NEGATE ||| NF_BINVDONE } NF_NEGDONE = false ∧
    number_format_t.needs_to_be_inverted { props := NF_NEGATE ||| NF_BINVDONE } = false ∧
    number_format_t.has_prop { props := NF_BITNOT ||| NF_NEGDONE } NF_BITNOT = true ∧
    number_format_t.has_prop { props := NF_BITNOT ||| NF_NEGDONE } NF_BINVDONE = false ∧
    number_format_t.needs_to_be_inverted { props := NF_BITNOT ||| NF_NEGDONE } = false := by
  decide

/-- C18 (amended): `needs_to_be_inverted` is true exactly when at least one of
`NF_NEGATE`, `NF_BITNOT` is set and neither `NF_NEGDONE` nor `NF_BINVDONE` is
set; whenever it is true, an inversion was requested whose own done bit is
clear. -/
theorem needs_to_be_inverted_iff (nf : number_format_t) :
    (nf.needs_to_be_inverted = true ↔
      ((nf.has_prop NF_NEGATE = true ∨ nf.has_prop NF_BITNOT = true) ∧
        nf.has_prop NF_NEGDONE = false ∧ nf.has_prop NF_BINVDONE = false)) ∧
    (nf.needs_to_be_inverted = true →
      ((nf.has_prop NF_NEGATE = true ∧ nf.has_prop NF_NEGDONE = false) ∨
        (nf.has_prop NF_BITNOT = true ∧ nf.has_prop NF_BINVDONE = false))) := by
  have key : nf.needs_to_be_inverted = true ↔
      ((nf.has_prop NF_NEGATE = true ∨ nf.has_prop NF_BITNOT = true) ∧
        nf.has_prop NF_NEGDONE = false ∧ nf.has_prop NF_BINVDONE = false) := by
    simp only [number_format_t.needs_to_be_inverted, number_format_t.has_prop,
      Nat.and_or_distrib_left, Bool.and_eq_true, bne_iff_ne, ne_eq, beq_iff_eq,
      lor_eq_zero_iff, bne_eq_false_iff_eq, not_and_or]
  refine ⟨key, ?_⟩
  intro h
  obtain ⟨h1, h2, h3⟩ := key.1 h
  rcases h1 with h1 | h1
  · exact Or.inl ⟨h1, h2⟩
  · exact Or.inr ⟨h1, h3⟩

/-- Witness for C18: a format with only `NF_NEGATE` set needs to be inverted,
and the negation is the request that is not done. -/
theorem needs_to_be_inverted_iff_witness :
    (number_format_t.has_prop { props := NF_NEGATE } NF_NEGATE = true ∧
      number_format_t.has_prop { props := NF_NEGATE } NF_NEGDONE = false) ∨
    (number_format_t.has_prop { props := NF_NEGATE } NF_BITNOT = true ∧
      number_format_t.has_prop { props := NF_NEGATE } NF_BINVDONE = false) :=
  (needs_to_be_inverted_iff { props := NF_NEGATE }).2 (by decide)

/-- C19 (as stated, refuted): a format whose only property bit is the temporary
`NF_NEGDONE` (or `NF_BINVDONE`) has `NF_FIXED` clear and still is fixed. -/
theorem is_fixed_without_nf_fixed :
    number_format_t.has_prop { props := NF_NEGDONE } NF_FIXED = false ∧
    number_format_t.is_fixed { props := NF_NEGDONE } = true ∧
    number_format_t.has_prop { props := NF_BINVDONE } NF_FIXED = false ∧
    number_format_t.is_fixed { props := NF_BINVDONE } = true := by
  decide

/-- C19 (amended): `is_fixed` is true exactly when `props` is not zero, that is
when any property bit is set; a default-constructed format is not fixed, and a
format with `NF_FIXED` set is fixed. -/
theorem is_fixed_iff (nf : number_format_t) :
    (nf.is_fixed = true ↔ nf.props ≠ 0) ∧
    (nf.is_fixed = true ↔ ∃ i, nf.props.testBit i = true) ∧
    (({} : number_format_t).is_fixed = false) ∧
    (nf.has_prop NF_FIXED = true → nf.is_fixed = true) := by
  refine ⟨?_, ?_, by decide, ?_⟩
  · simp [number_format_t.is_fixed]
  · simp only [number_format_t.is_fixed, bne_iff_ne, ne_eq]
    constructor
    · intro h
      by_contra hne
      apply h
      apply Nat.eq_of_testBit_eq
      intro i
      rw [Nat.zero_testBit]
      cases hb : nf.props.testBit i
      · rfl
      · exact (hne ⟨i, hb⟩).elim
    · rintro ⟨i, hi⟩ h0
      rw [h0, Nat.zero_testBit] at hi
      exact Bool.noConfusion hi
  · simp only [number_format_t.has_prop, number_format_t.is_fixed, bne_iff_ne, ne_eq]
    intro h h0
    apply h
    rw [h0]
    rfl

/-- Witness for C19: a format the user defined (`NF_FIXED` set) is fixed. -/
theorem is_fixed_iff_witness : number_format_t.is_fixed { props := NF_FIXED } = true :=
  (is_fixed_iff { props := NF_FIXED }).2.2.2 (by decide)

/-! ### Visitor flags -/

/-- C20: `prune_now` makes `must_prune` true and `clr_prune` makes it false,
`set_restart` and `clr_restart` do the same for `must_restart`, and none of
the four changes any other flag predicate, the vector of parents or the
derived members; `prune_now` followed by `clr_prune` gives back the visitor as
it was when `CV_PRUNE` was clear. -/
theorem prune_touches_only_prune_bit {σ : Type} (v : ctree_visitor_t σ) :
    v.prune_now.must_prune = true ∧ v.clr_prune.must_prune = false ∧
    (v.prune_now.maintain_parents = v.maintain_parents ∧
      v.prune_now.is_postorder = v.is_postorder ∧
      v.prune_now.must_restart = v.must_restart ∧
      v.prune_now.only_insns = v.only_insns) ∧
    (v.clr_prune.maintain_parents = v.maintain_parents ∧
      v.clr_prune.is_postorder = v.is_postorder ∧
      v.clr_prune.must_restart = v.must_restart ∧
      v.clr_prune.only_insns = v.only_insns) ∧
    v.set_restart.must_restart = true ∧ v.clr_restart.must_restart = false ∧
    (v.set_restart.maintain_parents = v.maintain_parents ∧
      v.set_restart.is_postorder = v.is_postorder ∧
      v.set_restart.must_prune = v.must_prune ∧
      v.set_restart.only_insns = v.only_insns) ∧
    (v.clr_restart.maintain_parents = v.maintain_parents ∧
      v.clr_restart.is_postorder = v.is_postorder ∧
      v.clr_restart.must_prune = v.must_prune ∧
      v.clr_restart.only_insns = v.only_insns) ∧
    (v.prune_now.parents = v.parents ∧ v.clr_prune.parents = v.parents ∧
      v.set_restart.parents = v.parents ∧ v.clr_restart.parents = v.parents) ∧
    (v.prune_now.user = v.user ∧ v.clr_prune.user = v.user ∧
      v.set_restart.user = v.user ∧ v.clr_restart.user = v.user) ∧
    (v.cv_flags < 2 ^ 32 → v.must_prune = false → v.prune_now.clr_prune = v) := by
  refine ⟨or_sets _ _ _ (by decide), and_clears _ _ _ (by decide), ?_, ?_,
    or_sets _ _ _ (by decide), and_clears _ _ _ (by decide), ?_, ?_,
    ⟨rfl, rfl, rfl, rfl⟩, ⟨rfl, rfl, rfl, rfl⟩, ?_⟩
  · simp only [ctree_visitor_t.maintain_parents, ctree_visitor_t.is_postorder,
      ctree_visitor_t.must_restart, ctree_visitor_t.only_insns, ctree_visitor_t.prune_now]
    refine ⟨?_, ?_, ?_, ?_⟩ <;> rw [or_frame _ _ _ (by decide)]
  · simp only [ctree_visitor_t.maintain_parents, ctree_visitor_t.is_postorder,
      ctree_visitor_t.must_restart, ctree_visitor_t.only_insns, ctree_visitor_t.clr_prune]
    refine ⟨?_, ?_, ?_, ?_⟩ <;> rw [and_frame _ _ _ (by decide)]
  · simp only [ctree_visitor_t.maintain_parents, ctree_visitor_t.is_postorder,
      ctree_visitor_t.must_prune, ctree_visitor_t.only_insns, ctree_visitor_t.set_restart]
    refine ⟨?_, ?_, ?_, ?_⟩ <;> rw [or_frame _ _ _ (by decide)]
  · simp only [ctree_visitor_t.maintain_parents, ctree_visitor_t.is_postorder,
      ctree_visitor_t.must_prune, ctree_visitor_t.only_insns, ctree_visitor_t.clr_restart]
    refine ⟨?_, ?_, ?_, ?_⟩ <;> rw [and_frame _ _ _ (by decide)]
  · intro hlt hp
    have h0 : v.cv_flags &&& CV_PRUNE = 0 := by
      simpa [ctree_visitor_t.must_prune] using hp
    have := set_then_clear v.cv_flags CV_PRUNE hlt (by decide) h0
    cases v
    simp only [ctree_visitor_t.prune_now, ctree_visitor_t.clr_prune] at this ⊢
    rw [this]

/-- Witness for C20: a post-order visitor with parent tracking asks for pruning
and has the request cleared, and is as before. -/
theorem prune_touches_only_prune_bit_witness :
    ctree_visitor_t.clr_prune (ctree_visitor_t.prune_now
      (⟨CV_PARENTS ||| CV_POST, [], ()⟩ : ctree_visitor_t Unit))
      = ⟨CV_PARENTS ||| CV_POST, [], ()⟩ :=
  (prune_touches_only_prune_bit
    (⟨CV_PARENTS ||| CV_POST, [], ()⟩ : ctree_visitor_t Unit)).2.2.2.2.2.2.2.2.2.2
    (by decide) (by decide)

/-! ### The cache of decompilation results -/

namespace std_map

variable {K V : Type} {lt : K → K → Bool}

theorem find_erase_self (k : K) (m : std_map K V) : find lt k (erase lt k m) = none := by
  induction m with
  | nil => rfl
  | cons d rest ih =>
    obtain ⟨k0, v0⟩ := d
    unfold erase at ih ⊢
    rw [List.filter_cons]
    cases h1 : lt k0 k <;> cases h2 : lt k k0 <;>
      simp only [Bool.or_false, Bool.or_true, Bool.false_eq_true, if_false, if_true, find, h1,
        h2, Bool.not_true, Bool.not_false, Bool.and_false, Bool.false_and, Bool.and_self] <;>
      exact ih

theorem find_erase_other (h : strict_order lt) (k q : K) (m : std_map K V) (hne : q ≠ k) :
    find lt q (erase lt k m) = find lt q m := by
  induction m with
  | nil => rfl
  | cons d rest ih =>
    obtain ⟨k0, v0⟩ := d
    unfold erase at ih ⊢
    rw [List.filter_cons]
    cases h1 : lt k0 k <;> cases h2 : lt k k0 <;>
      simp only [Bool.or_false, Bool.or_true, Bool.false_eq_true, if_false, if_true]
    · have hk : k0 = k := h.total k0 k h1 h2
      rw [hk, find_cons_other h k q v0 rest hne]
      exact ih
    · rw [find, find, ih]
    · rw [find, find, ih]
    · rw [find, find, ih]

theorem erase_length_le (k : K) (m : std_map K V) : (erase lt k m).length ≤ m.length :=
  List.length_filter_le _ _

theorem erase_count_ne_zero (k : K) (m : std_map K V) :
    (erase_count lt k m != 0) = (find lt k m).isSome := by
  induction m with
  | nil => rfl
  | cons d rest ih =>
    obtain ⟨k0, v0⟩ := d
    have hle := @erase_length_le K V lt k rest
    unfold erase_count erase at ih hle ⊢
    rw [List.filter_cons, find]
    cases h1 : lt k0 k <;> cases h2 : lt k k0 <;>
      simp only [Bool.or_false, Bool.or_true, Bool.false_eq_true, if_false, if_true,
        Bool.not_true, Bool.not_false, Bool.and_false, Bool.false_and, Bool.and_self,
        List.length_cons, Option.isSome_some]
    · rw [bne_iff_ne]
      omega
    · rw [← ih, Nat.add_sub_add_right]
    · rw [← ih, Nat.add_sub_add_right]
    · rw [← ih, Nat.add_sub_add_right]

end std_map

/-- C11: `mark_cfunc_dirty(ea)` reports whether `ea` was cached just before,
leaves `ea` uncached, and keeps the entry (or absence) of every other address;
after `clear_cached_cfuncs()` no address is cached. -/
theorem mark_cfunc_dirty_evicts (cache : cfunc_cache_t) (ea : ea_t) :
    (mark_cfunc_dirty cache ea).1 = has_cached_cfunc cache ea ∧
    has_cached_cfunc (mark_cfunc_dirty cache ea).2 ea = false ∧
    (∀ ea2 : ea_t, ea2 ≠ ea →
      std_map.find ea_lt ea2 (mark_cfunc_dirty cache ea).2 = std_map.find ea_lt ea2 cache ∧
      has_cached_cfunc (mark_cfunc_dirty cache ea).2 ea2 = has_cached_cfunc cache ea2) ∧
    (∀ ea2 : ea_t, has_cached_cfunc (clear_cached_cfuncs cache) ea2 = false) := by
  refine ⟨?_, ?_, ?_, fun _ => rfl⟩
  · exact std_map.erase_count_ne_zero ea cache
  · simp only [has_cached_cfunc, mark_cfunc_dirty, std_map.find_erase_self, Option.isSome_none]
  · intro ea2 hne
    have hf := std_map.find_erase_other ea_lt_strict_order ea ea2 cache hne
    refine ⟨hf, ?_⟩
    simp only [has_cached_cfunc, mark_cfunc_dirty, hf]

/-- Witness for C11: with the functions at 0x401000 and 0x402000 cached,
marking the first dirty leaves the second cached. -/
theorem mark_cfunc_dirty_evicts_witness :
    has_cached_cfunc (mark_cfunc_dirty [(0x401000, 1), (0x402000, 2)] 0x401000).2 0x402000
      = has_cached_cfunc [(0x401000, 1), (0x402000, 2)] 0x402000 :=
  ((mark_cfunc_dirty_evicts [(0x401000, 1), (0x402000, 2)] 0x401000).2.2.1 0x402000
    (by decide)).2

/-! ### Comparisons -/

/-- C13 (code at the failing input): for two warnings that differ in the text
only, "a" against "c", `hexwarn_t::compare` returns what `strcmp` returns,
which is -2 for a byte-difference `strcmp`; it returns -1 or 1 when address or
identifier differ, and `ctext_position_t::compare` returns only -1, 0 or 1. -/
theorem hexwarn_compare_passes_strcmp_through :
    hexwarn_t.compare strcmp_diff ⟨0x401000, 0, "a"⟩ ⟨0x401000, 0, "c"⟩ = -2 ∧
    (∀ (strcmp : qstring → qstring → Int) (a r : hexwarn_t), a.ea = r.ea → a.id = r.id →
      hexwarn_t.compare strcmp a r = strcmp a.text r.text) ∧
    (∀ (strcmp : qstring → qstring → Int) (a r : hexwarn_t), (a.ea ≠ r.ea ∨ a.id ≠ r.id) →
      (hexwarn_t.compare strcmp a r = -1 ∨ hexwarn_t.compare strcmp a r = 1)) ∧
    (∀ a r : ctext_position_t,
      a.compare r = -1 ∨ a.compare r = 0 ∨ a.compare r = 1) := by
  refine ⟨by decide, ?_, ?_, ?_⟩
  · intro strcmp a r h1 h2
    simp [hexwarn_t.compare, h1, h2]
  · intro strcmp a r h
    unfold hexwarn_t.compare
    unfold ea_t at *
    split_ifs <;> first | exact Or.inl rfl | exact Or.inr rfl | (exfalso; omega)
  · intro a r
    unfold ctext_position_t.compare
    split_ifs <;> simp

/-! ### Operands and call parents -/

/-- C16: for an expression whose operands `x` and `y` point to items,
`get_1num_op` returns true exactly when one of them is a `cot_num`; then `*o1`
is an operand that is a number (`x` when `x` is one) and `*o2` is the other
operand; when it returns false `*o1` and `*o2` are as before. -/
theorem get_1num_op_spec (mem : ctree_mem) (e : cexpr_t) (o1 o2 : ptr_t)
    (xo yo : item_obj) (hx : mem.items e.x = some xo) (hy : mem.items e.y = some yo) :
    ∃ (r : Bool) (p1 p2 : ptr_t), e.get_1num_op mem o1 o2 = some (r, p1, p2) ∧
      (r = true ↔ (xo.op = ctype_t.cot_num ∨ yo.op = ctype_t.cot_num)) ∧
      (r = true →
        (∃ n, mem.items p1 = some n ∧ n.op = ctype_t.cot_num) ∧
        ((p1 = e.x ∧ p2 = e.y) ∨ (p1 = e.y ∧ p2 = e.x)) ∧
        (xo.op = ctype_t.cot_num → p1 = e.x ∧ p2 = e.y)) ∧
      (r = false → p1 = o1 ∧ p2 = o2) := by
  unfold cexpr_t.get_1num_op
  rw [hx]
  by_cases h1 : xo.op = ctype_t.cot_num
  · refine ⟨true, e.x, e.y, by simp [h1], by simp [h1], ?_, by simp⟩
    intro _
    exact ⟨⟨xo, hx, h1⟩, Or.inl ⟨rfl, rfl⟩, fun _ => ⟨rfl, rfl⟩⟩
  · rw [hy]
    by_cases h2 : yo.op = ctype_t.cot_num
    · refine ⟨true, e.y, e.x, by simp [h1, h2], by simp [h2], ?_, by simp⟩
      intro _
      exact ⟨⟨yo, hy, h2⟩, Or.inr ⟨rfl, rfl⟩, fun h => (h1 h).elim⟩
    · refine ⟨false, o1, o2, by simp [h1, h2], by simp [h1, h2], by simp, ?_⟩
      intro _
      exact ⟨rfl, rfl⟩

/-- Witness for C16: in `v + 5` with the variable at 10 and the number at 20,
a number operand is found. -/
theorem get_1num_op_spec_witness :
    ∃ (r : Bool) (p1 p2 : ptr_t),
      cexpr_t.get_1num_op sum_mem_example { op := ctype_t.cot_add, x := 10, y := 20 } 0 0
        = some (r, p1, p2) ∧ r = true :=
  let ⟨r, p1, p2, h, h2, _, _⟩ :=
    get_1num_op_spec sum_mem_example { op := ctype_t.cot_add, x := 10, y := 20 } 0 0
      (.expr { op := ctype_t.cot_var }) (.expr { op := ctype_t.cot_num }) rfl rfl
  ⟨r, p1, p2, h, h2.2 (Or.inr rfl)⟩

/-- C17 (as stated, refuted): for the call `f(1)` at address 100 and the
unrelated number at address 400, `is_call_arg_of` returns true although 400 is
not among the arguments of the call (the only argument is at 300). -/
theorem is_call_arg_of_unrelated :
    cexpr_t.is_call_arg_of call_mem_example 400 100 = some true ∧
    call_args call_mem_example 100 = [300] ∧
    400 ∉ call_args call_mem_example 100 := by
  decide

/-- C17 (amended): both predicates are false for a `NULL` parent and for a
parent that is not a `cot_call`; for a call, `is_call_object_of` is true
exactly when the called object `x` is the expression, and `is_call_arg_of` is
true exactly when it is not.  For an expression that is a child of the call
(its object or one of its arguments, the object not being an argument) this
means that `is_call_arg_of` is true exactly for the arguments. -/
theorem is_call_arg_of_spec (mem : ctree_mem) (this parent : ptr_t) :
    (parent = NULL →
      cexpr_t.is_call_object_of mem this parent = some false ∧
      cexpr_t.is_call_arg_of mem this parent = some false) ∧
    (∀ p : item_obj, parent ≠ NULL → mem.items parent = some p →
      (p.op ≠ ctype_t.cot_call →
        cexpr_t.is_call_object_of mem this parent = some false ∧
        cexpr_t.is_call_arg_of mem this parent = some false) ∧
      (p.op = ctype_t.cot_call →
        cexpr_t.is_call_object_of mem this parent = some (decide (p.x = this)) ∧
        cexpr_t.is_call_arg_of mem this parent = some (decide (p.x ≠ this))) ∧
      (p.op = ctype_t.cot_call → p.x ∉ call_args mem parent →
        (this = p.x ∨ this ∈ call_args mem parent) →
        (cexpr_t.is_call_arg_of mem this parent = some true ↔
          this ∈ call_args mem parent))) := by
  refine ⟨?_, ?_⟩
  · intro h
    simp [cexpr_t.is_call_object_of, cexpr_t.is_call_arg_of, h]
  · intro p hp hm
    refine ⟨?_, ?_, ?_⟩
    · intro hop
      simp [cexpr_t.is_call_object_of, cexpr_t.is_call_arg_of, hp, hm, hop]
    · intro hop
      simp [cexpr_t.is_call_object_of, cexpr_t.is_call_arg_of, hp, hm, hop]
    · intro hop hx hchild
      simp only [cexpr_t.is_call_arg_of, hp, hm, hop, if_false, decide_True, Bool.true_and,
        Option.some.injEq, decide_eq_true_eq]
      constructor
      · intro hne
        rcases hchild with h | h
        · exact (hne h.symm).elim
        · exact h
      · intro hin heq
        rw [heq] at hx
        exact hx hin

/-- Witness for C17: in the call `f(1)` at 100 the argument at 300 is a call
argument of it. -/
theorem is_call_arg_of_spec_witness :
    cexpr_t.is_call_arg_of call_mem_example 300 100 = some true :=
  ((is_call_arg_of_spec call_mem_example 300 100).2
    (.expr { op := ctype_t.cot_call, x := 101, y := 200 }) (by decide) rfl).2.2
    rfl (by decide) (Or.inr (by decide)) |>.2 (by decide)

/-! ### Saved settings lookup -/

/-- C21: `find_info(vloc)` returns the entry of `lvvec` with the lowest index
whose locator equals `vloc`, and `NULL` exactly when no entry has a locator
equal to `vloc`; the result is a position in the unchanged vector. -/
theorem find_info_first_match (cmp : lvar_locator_t → lvar_locator_t → Int)
    (u : lvar_uservec_t) (vloc : lvar_locator_t) :
    (∀ p : Nat, u.find_info cmp vloc = some p →
      ∃ e : lvar_saved_info_t, u.lvvec[p]? = some e ∧ cmp e.ll vloc = 0 ∧
        ∀ j < p, ∀ d : lvar_saved_info_t, u.lvvec[j]? = some d → cmp d.ll vloc ≠ 0) ∧
    (u.find_info cmp vloc = none ↔ ∀ e ∈ u.lvvec, cmp e.ll vloc ≠ 0) ∧
    ((∃ e ∈ u.lvvec, cmp e.ll vloc = 0) → ∃ p, u.find_info cmp vloc = some p) := by
  refine ⟨?_, find_info_from_none cmp vloc u.lvvec 0, ?_⟩
  · intro p hp
    obtain ⟨n, hpn, ⟨e, he, hc⟩, hlt⟩ := find_info_from_spec cmp vloc u.lvvec 0 p hp
    have : p = n := by omega
    subst this
    exact ⟨e, he, hc, hlt⟩
  · rintro ⟨e, he, hc⟩
    cases hf : u.find_info cmp vloc with
    | some p => exact ⟨p, rfl⟩
    | none =>
      exact ((find_info_from_none cmp vloc u.lvvec 0).1 hf e he hc).elim

/-- Witness for C21: in the example table the settings for the variable at stack
offset 16 are found at position 1. -/
theorem find_info_first_match_witness :
    ∃ e : lvar_saved_info_t, uservec_example.lvvec[1]? = some e ∧
      locator_cmp_example e.ll { location := .stkoff 16, defea := 0x1010 } = 0 :=
  let ⟨e, h1, h2, _⟩ :=
    (find_info_first_match locator_cmp_example uservec_example
      { location := .stkoff 16, defea := 0x1010 }).1 1 (by decide)
  ⟨e, h1, h2⟩

/-! ### The other operand -/

/-- C22: for an expression whose operands `x` and `y` are different nodes,
`theother(x)` is `y` and `theother(y)` is `x`, applying it twice to either
operand gives the operand back, and the node returned is never the node passed
in. -/
theorem theother_swaps (e : cexpr_t) (hxy : e.x ≠ e.y) :
    e.theother e.x = e.y ∧ e.theother e.y = e.x ∧
    e.theother (e.theother e.x) = e.x ∧ e.theother (e.theother e.y) = e.y ∧
    (∀ what : ptr_t, e.theother what ≠ what) := by
  have h1 : e.theother e.x = e.y := by simp [cexpr_t.theother]
  have h2 : e.theother e.y = e.x := by simp [cexpr_t.theother, Ne.symm hxy]
  refine ⟨h1, h2, by rw [h1, h2], by rw [h2, h1], ?_⟩
  intro what
  unfold cexpr_t.theother
  by_cases hw : what = e.x
  · rw [if_pos hw, hw]
    exact Ne.symm hxy
  · rw [if_neg hw]
    exact Ne.symm hw

/-- Witness for C22: in a sum with the operands at addresses 10 and 20 the other
operand of 10 is 20 and back. -/
theorem theother_swaps_witness :
    cexpr_t.theother { op := ctype_t.cot_add, x := 10, y := 20 } 10 = 20 ∧
    cexpr_t.theother { op := ctype_t.cot_add, x := 10, y := 20 } 20 = 10 :=
  let h := theother_swaps { op := ctype_t.cot_add, x := 10, y := 20 } (by decide)
  ⟨h.1, h.2.1⟩

/-! ### Register names -/

/-- C24: `set_reg_name(n)` sets the name to `n`, makes `used()` false and
`has_nice_name()` true, and leaves every other property predicate
(`has_user_name` among them), the type, width, comment, defining block,
divisor and location as they were. -/
theorem set_reg_name_frame (v : lvar_t) (n : qstring) :
    (v.set_reg_name n).name = n ∧
    (v.set_reg_name n).used = false ∧
    (v.set_reg_name n).has_nice_name = true ∧
    (∀ p : lvar_property, p ≠ .used → p ≠ .has_nice_name →
      p.holds (v.set_reg_name n) = p.holds v) ∧
    (v.set_reg_name n).has_user_name = v.has_user_name ∧
    ((v.set_reg_name n).tif = v.tif ∧ (v.set_reg_name n).width = v.width ∧
      (v.set_reg_name n).cmt = v.cmt ∧ (v.set_reg_name n).defblk = v.defblk ∧
      (v.set_reg_name n).divisor = v.divisor ∧
      (v.set_reg_name n).tolvar_locator_t = v.tolvar_locator_t) := by
  have frame : ∀ b : Nat, CVAR_NAME &&& b = 0 → bit_not32 CVAR_USED &&& b = b →
      ((v.flags &&& bit_not32 CVAR_USED) ||| CVAR_NAME) &&& b = v.flags &&& b := by
    intro b h1 h2
    rw [or_frame _ _ _ h1, and_frame _ _ _ h2]
  refine ⟨rfl, ?_, or_sets _ _ _ (by decide), ?_, ?_, ⟨rfl, rfl, rfl, rfl, rfl, rfl⟩⟩
  · show (((v.flags &&& bit_not32 CVAR_USED) ||| CVAR_NAME) &&& CVAR_USED != 0) = false
    rw [or_frame _ _ _ (by decide)]
    exact and_clears _ _ _ (by decide)
  · intro p h1 h2
    cases p <;>
      first
      | exact (h1 rfl).elim
      | exact (h2 rfl).elim
      | (simp only [lvar_property.holds, lvar_t.typed, lvar_t.mreg_done,
           lvar_t.is_unknown_width, lvar_t.has_user_info, lvar_t.has_user_name,
           lvar_t.has_user_type, lvar_t.is_result_var, lvar_t.is_arg_var,
           lvar_t.is_fake_var, lvar_t.is_overlapped_var, lvar_t.is_floating_var,
           lvar_t.is_spoiled_var, lvar_t.is_partialy_typed, lvar_t.is_mapdst_var,
           lvar_t.set_reg_name]
         rw [frame _ (by decide) (by decide)])
  · show (((v.flags &&& bit_not32 CVAR_USED) ||| CVAR_NAME) &&& CVAR_UNAME != 0)
      = (v.flags &&& CVAR_UNAME != 0)
    rw [frame _ (by decide) (by decide)]

/-- Witness for C24: naming a default-constructed variable after a register
leaves it untyped. -/
theorem set_reg_name_frame_witness :
    lvar_property.holds .typed (lvar_t.set_reg_name {} "eax")
      = lvar_property.holds .typed ({} : lvar_t) :=
  (set_reg_name_frame {} "eax").2.2.2.1 .typed (by decide) (by decide)

/-! ### Ordering of warnings -/

theorem strcmp_bytes_antisymm (l1 l2 : List Nat) :
    strcmp_bytes l1 l2 = - strcmp_bytes l2 l1 := by
  induction l1 generalizing l2 with
  | nil =>
    cases l2 with
    | nil => simp [strcmp_bytes]
    | cons b bs => simp [strcmp_bytes]
  | cons a as ih =>
    cases l2 with
    | nil => simp [strcmp_bytes]
    | cons b bs =>
      by_cases hab : a = b
      · subst hab
        simp only [strcmp_bytes, if_true]
        exact ih bs
      · have hba : ¬ b = a := fun h => hab h.symm
        simp only [strcmp_bytes, hab, hba, if_false]
        omega

theorem strcmp_bytes_eq_zero (l1 l2 : List Nat) (h1 : ∀ b ∈ l1, b ≠ 0)
    (h2 : ∀ b ∈ l2, b ≠ 0) : strcmp_bytes l1 l2 = 0 ↔ l1 = l2 := by
  induction l1 generalizing l2 with
  | nil =>
    cases l2 with
    | nil => simp [strcmp_bytes]
    | cons b bs =>
      have hb := h2 b (List.mem_cons_self _ _)
      simp only [strcmp_bytes]
      constructor
      · intro h; omega
      · intro h; cases h
  | cons a as ih =>
    cases l2 with
    | nil =>
      have ha := h1 a (List.mem_cons_self _ _)
      simp only [strcmp_bytes]
      constructor
      · intro h; omega
      · intro h; cases h
    | cons b bs =>
      by_cases hab : a = b
      · subst hab
        simp only [strcmp_bytes, if_true, List.cons.injEq, true_and]
        exact ih bs (fun x hx => h1 x (List.mem_cons_of_mem _ hx))
          (fun x hx => h2 x (List.mem_cons_of_mem _ hx))
      · simp only [strcmp_bytes, hab, if_false, List.cons.injEq, false_and, iff_false]
        omega

theorem strcmp_bytes_neg_iff (l1 l2 : List Nat) (h2 : ∀ b ∈ l2, b ≠ 0) :
    strcmp_bytes l1 l2 < 0 ↔ List.Lex (fun a b : Nat => a < b) l1 l2 := by
  induction l1 generalizing l2 with
  | nil =>
    cases l2 with
    | nil =>
      simp only [strcmp_bytes]
      constructor
      · intro h; omega
      · intro h; cases h
    | cons b bs =>
      have hb := h2 b (List.mem_cons_self _ _)
      simp only [strcmp_bytes]
      constructor
      · intro _; exact List.Lex.nil
      · intro _; omega
  | cons a as ih =>
    cases l2 with
    | nil =>
      simp only [strcmp_bytes]
      constructor
      · intro h; omega
      · intro h; cases h
    | cons b bs =>
      have ih2 := ih bs (fun x hx => h2 x (List.mem_cons_of_mem _ hx))
      by_cases hab : a = b
      · subst hab
        simp only [strcmp_bytes, if_true]
        rw [ih2]
        constructor
        · intro h; exact List.Lex.cons h
        · intro h
          cases h with
          | cons h => exact h
          | rel h => exact (lt_irrefl _ h).elim
      · simp only [strcmp_bytes, hab, if_false]
        constructor
        · intro h; exact List.Lex.rel (by omega)
        · intro h
          cases h with
          | cons h => exact (hab rfl).elim
          | rel h => omega

theorem c_str_nonzero (s : qstring) : ∀ b ∈ c_str s, b ≠ 0 := by
  intro b hb
  have := List.mem_takeWhile_imp hb
  simpa using this

theorem c_str_injective (s1 s2 : qstring) (h1 : ∀ c ∈ s1.data, c.toNat ≠ 0)
    (h2 : ∀ c ∈ s2.data, c.toNat ≠ 0) (h : c_str s1 = c_str s2) : s1 = s2 := by
  have e1 : c_str s1 = s1.data.map Char.toNat := by
    unfold c_str
    rw [List.takeWhile_eq_self_iff]
    intro x hx
    obtain ⟨c, hc, rfl⟩ := List.mem_map.1 hx
    simpa using h1 c hc
  have e2 : c_str s2 = s2.data.map Char.toNat := by
    unfold c_str
    rw [List.takeWhile_eq_self_iff]
    intro x hx
    obtain ⟨c, hc, rfl⟩ := List.mem_map.1 hx
    simpa using h2 c hc
  rw [e1, e2] at h
  apply String.ext
  have h3 := congrArg (List.map Char.ofNat) h
  simpa [List.map_map, Function.comp_def] using h3
theorem sign_eq_facts (x y : Int) (h : Int.sign x = Int.sign y) :
    (x < 0 ↔ y < 0) ∧ (x = 0 ↔ y = 0) ∧ (0 < x ↔ 0 < y) := by
  rcases lt_trichotomy x 0 with hx | hx | hx <;> rcases lt_trichotomy y 0 with hy | hy | hy
  all_goals
    first
    | (refine ⟨?_, ?_, ?_⟩ <;> constructor <;> intro _ <;> omega)
    | (exfalso
       first
       | rw [Int.sign_eq_neg_one_of_neg hx, Int.sign_eq_one_of_pos hy] at h
       | rw [Int.sign_eq_one_of_pos hx, Int.sign_eq_neg_one_of_neg hy] at h
       | rw [Int.sign_eq_neg_one_of_neg hx, hy, Int.sign_zero] at h
       | rw [Int.sign_eq_one_of_pos hx, hy, Int.sign_zero] at h
       | rw [hx, Int.sign_zero, Int.sign_eq_neg_one_of_neg hy] at h
       | rw [hx, Int.sign_zero, Int.sign_eq_one_of_pos hy] at h
       omega)

theorem strcmp_conforms_facts (strcmp : qstring → qstring → Int)
    (hs : strcmp_conforms strcmp) (s1 s2 : qstring) :
    (strcmp s1 s2 < 0 ↔ strcmp_diff s1 s2 < 0) ∧
    (strcmp s1 s2 = 0 ↔ strcmp_diff s1 s2 = 0) ∧
    Int.sign (strcmp s1 s2) = - Int.sign (strcmp s2 s1) := by
  have h12 := hs s1 s2
  have h21 := hs s2 s1
  obtain ⟨a1, a2, _⟩ := sign_eq_facts _ _ h12
  refine ⟨a1, a2, ?_⟩
  rw [h12, h21]
  unfold strcmp_diff
  rw [strcmp_bytes_antisymm (c_str s1) (c_str s2), Int.sign_neg]

/-- C23 (amended): `hexwarn_t::compare` orders warnings by address first, then
by identifier, then by text: a smaller address gives a negative result
whatever the rest is, with equal addresses a smaller identifier does, and with
both equal the result is negative exactly when the text is smaller byte by
byte.  The result is 0 exactly when address and identifier are equal and the
texts are equal as C strings, that is up to their first zero byte; for texts
without a zero byte this is equality of the two warnings.  The sign of the
result is opposite to the sign for the swapped arguments, and the derived
operators follow it: exactly one of `a < b`, `a == b`, `a > b` holds. -/
theorem hexwarn_compare_lexicographic (strcmp : qstring → qstring → Int)
    (hs : strcmp_conforms strcmp) (a b : hexwarn_t) :
    (a.ea < b.ea → hexwarn_t.compare strcmp a b < 0) ∧
    (a.ea = b.ea → a.id < b.id → hexwarn_t.compare strcmp a b < 0) ∧
    (a.ea = b.ea → a.id = b.id →
      (hexwarn_t.compare strcmp a b < 0 ↔
        List.Lex (fun x y : Nat => x < y) (c_str a.text) (c_str b.text))) ∧
    (hexwarn_t.compare strcmp a b = 0 ↔
      (a.ea = b.ea ∧ a.id = b.id ∧ c_str a.text = c_str b.text)) ∧
    ((∀ c ∈ a.text.data, c.toNat ≠ 0) → (∀ c ∈ b.text.data, c.toNat ≠ 0) →
      (hexwarn_t.compare strcmp a b = 0 ↔ a = b)) ∧
    Int.sign (hexwarn_t.compare strcmp a b) = - Int.sign (hexwarn_t.compare strcmp b a) ∧
    ((hexwarn_t.lt strcmp a b = true ∧ hexwarn_t.eq strcmp a b = false ∧
        hexwarn_t.gt strcmp a b = false) ∨
      (hexwarn_t.lt strcmp a b = false ∧ hexwarn_t.eq strcmp a b = true ∧
        hexwarn_t.gt strcmp a b = false) ∨
      (hexwarn_t.lt strcmp a b = false ∧ hexwarn_t.eq strcmp a b = false ∧
        hexwarn_t.gt strcmp a b = true)) ∧
    (hexwarn_t.ne strcmp a b = !hexwarn_t.eq strcmp a b) ∧
    (hexwarn_t.le strcmp a b = !hexwarn_t.gt strcmp a b) ∧
    (hexwarn_t.ge strcmp a b = !hexwarn_t.lt strcmp a b) ∧
    (hexwarn_t.gt strcmp a b = hexwarn_t.lt strcmp b a) ∧
    (hexwarn_t.eq strcmp a b = hexwarn_t.eq strcmp b a) := by
  obtain ⟨f1, f2, f3⟩ := strcmp_conforms_facts strcmp hs a.text b.text
  have hzero : hexwarn_t.compare strcmp a b = 0 ↔
      (a.ea = b.ea ∧ a.id = b.id ∧ c_str a.text = c_str b.text) := by
    have hz : strcmp a.text b.text = 0 ↔ c_str a.text = c_str b.text := by
      rw [f2]
      exact strcmp_bytes_eq_zero _ _ (c_str_nonzero _) (c_str_nonzero _)
    unfold hexwarn_t.compare
    unfold ea_t at *
    split_ifs
    all_goals
      first
      | (rw [hz]; exact ⟨fun h => ⟨by omega, by omega, h⟩, fun h => h.2.2⟩)
      | exact ⟨fun h => by first | exact h.elim | omega,
          fun h => by exfalso; obtain ⟨e1, e2, _⟩ := h; omega⟩
  have hsign : Int.sign (hexwarn_t.compare strcmp a b)
      = - Int.sign (hexwarn_t.compare strcmp b a) := by
    unfold hexwarn_t.compare
    unfold ea_t at *
    split_ifs
    all_goals first | exact f3 | rfl | decide | (exfalso; omega)
  have hneg := sign_eq_facts _ _ (hsign.trans (Int.sign_neg _).symm)
  have hpos : hexwarn_t.compare strcmp a b > 0 ↔ hexwarn_t.compare strcmp b a < 0 := by
    have := hneg.2.2
    constructor <;> intro h <;> omega
  have hzs : hexwarn_t.compare strcmp a b = 0 ↔ hexwarn_t.compare strcmp b a = 0 := by
    have := hneg.2.1
    constructor <;> intro h <;> omega
  refine ⟨?_, ?_, ?_, hzero, ?_, hsign, ?_, ?_, ?_, ?_, ?_, ?_⟩
  · intro h
    simp [hexwarn_t.compare, h]
  · intro h1 h2
    simp [hexwarn_t.compare, h1, h2]
  · intro h1 h2
    have : hexwarn_t.compare strcmp a b = strcmp a.text b.text := by
      simp [hexwarn_t.compare, h1, h2]
    rw [this, f1]
    exact strcmp_bytes_neg_iff _ _ (c_str_nonzero _)
  · intro ha hb
    rw [hzero]
    constructor
    · rintro ⟨h1, h2, h3⟩
      obtain ⟨ae, ai, at_⟩ := a
      obtain ⟨be, bi, bt⟩ := b
      simp only at h1 h2 h3 ha hb
      rw [h1, h2, c_str_injective at_ bt ha hb h3]
    · intro h
      rw [h]
      exact ⟨rfl, rfl, rfl⟩
  · simp only [hexwarn_t.lt, hexwarn_t.eq, hexwarn_t.gt, decide_eq_true_eq,
      decide_eq_false_iff_not]
    omega
  · simp [hexwarn_t.ne, hexwarn_t.eq]
  · simp only [hexwarn_t.le, hexwarn_t.gt]
    rw [Bool.eq_iff_iff]
    simp only [decide_eq_true_eq, Bool.not_eq_true', decide_eq_false_iff_not]
    omega
  · simp only [hexwarn_t.ge, hexwarn_t.lt]
    rw [Bool.eq_iff_iff]
    simp only [decide_eq_true_eq, Bool.not_eq_true', decide_eq_false_iff_not]
    omega
  · simp only [hexwarn_t.gt, hexwarn_t.lt]
    rw [Bool.eq_iff_iff]
    simp only [decide_eq_true_eq]
    exact hpos
  · simp only [hexwarn_t.eq]
    rw [Bool.eq_iff_iff]
    simp only [decide_eq_true_eq]
    exact hzs

/-- Witness for C23 (amended): with the byte-difference `strcmp`, a warning at
0x401000 compares below one at 0x401004 although its identifier and text are
larger. -/
theorem hexwarn_compare_lexicographic_witness :
    hexwarn_t.compare strcmp_diff ⟨0x401000, 5, "z"⟩ ⟨0x401004, 1, "a"⟩ < 0 :=
  (hexwarn_compare_lexicographic strcmp_diff (fun _ _ => rfl)
    ⟨0x401000, 5, "z"⟩ ⟨0x401004, 1, "a"⟩).1 (by decide)

/-- C23 (as stated, refuted): `compare(a, b) == 0` does not require the texts
to be equal.  `text` is a `qstring` and may hold a zero byte, while `compare`
hands `text.c_str()` to `strcmp`, which reads up to the first zero byte: the
warnings with texts `a\0b` and `a\0c` at the same address and with the same
identifier compare equal, `==` holds for them, and yet they differ. -/
theorem hexwarn_compare_zero_on_distinct_texts :
    hexwarn_t.compare strcmp_diff ⟨0x401000, 0, "a\x00b"⟩ ⟨0x401000, 0, "a\x00c"⟩ = 0 ∧
    hexwarn_t.eq strcmp_diff ⟨0x401000, 0, "a\x00b"⟩ ⟨0x401000, 0, "a\x00c"⟩ = true ∧
    (⟨0x401000, 0, "a\x00b"⟩ : hexwarn_t).text ≠ (⟨0x401000, 0, "a\x00c"⟩ : hexwarn_t).text ∧
    (⟨0x401000, 0, "a\x00b"⟩ : hexwarn_t) ≠ ⟨0x401000, 0, "a\x00c"⟩ := by
  decide

end Hexrays
